import Mathlib

/-!
# Scraper: the `/search` handler of `main.go`

A shallow embedding of the keyword-batch handler registered in `main` and the
properties of its keyword loop.

Modelling conventions.

* A Go `string` is a `List Char`: a sequence of Unicode code points, that is, a
  valid UTF-8 string.  Where the code works on the bytes of a string
  (`url.QueryEscape`), the bytes are those of `utf8Bytes`.
* The effects of the handler (the output file, the outbound calls, the log, the
  responses dumped on stderr) are collected in an explicit `Effects` record.
* The outside world is a `World` record: the clock, whether `os.Create`
  succeeds, the answer of `http.DefaultClient.Do` at each loop iteration and
  the result of `json.Decoder.Decode` on a body.  Theorems quantify over it.
* Writes to the output file are taken to succeed (the code ignores the result
  of `fmt.Fprintln`), and so is `http.NewRequestWithContext`, whose error the
  code drops.
* Time is left out: the 30-second deadline of a call shows only as one of the
  transport errors `Do` may return.
-/

namespace Scraper

/-! ## Strings -/

/-- Go `unicode.IsSpace`: the Latin-1 spaces, then the `White_Space` table. -/
def IsSpace (r : Char) : Bool :=
  let n := r.toNat
  if n ≤ 0xFF then
    n == 0x09 || n == 0x0A || n == 0x0B || n == 0x0C || n == 0x0D || n == 0x20
      || n == 0x85 || n == 0xA0
  else
    n == 0x1680 || (0x2000 ≤ n && n ≤ 0x200A) || n == 0x2028 || n == 0x2029
      || n == 0x202F || n == 0x205F || n == 0x3000

/-- Go `strings.TrimSpace`: all leading and trailing white space removed. -/
def TrimSpace (s : List Char) : List Char :=
  ((s.dropWhile IsSpace).reverse.dropWhile IsSpace).reverse

/-- Whether `sep` occurs at the very start of `s` (Go `strings.HasPrefix`). -/
def startsWith : List Char → List Char → Bool
  | [], _ => true
  | _ :: _, [] => false
  | a :: sep, c :: s => a == c && startsWith sep s

/-- The loop of Go `strings.Split` for a non-empty separator: `cur` holds the
current piece in reverse, `skip` counts the separator characters still to be
jumped over after a match. -/
def splitAux (sep : List Char) : Nat → List Char → List Char → List (List Char)
  | _, cur, [] => [cur.reverse]
  | skip + 1, cur, _ :: cs => splitAux sep skip cur cs
  | 0, cur, c :: cs =>
    if startsWith sep (c :: cs) then cur.reverse :: splitAux sep (sep.length - 1) [] cs
    else splitAux sep 0 (c :: cur) cs

/-- Go `strings.Split(s, sep)`: the pieces between the leftmost non-overlapping
occurrences of `sep`; an empty `sep` splits after each character. -/
def Split (s sep : List Char) : List (List Char) :=
  if sep = [] then s.map fun c => [c] else splitAux sep 0 [] s

/-- Go `strings.Cut(s, sep)` for a one-character separator: the text before
and after the first `sep`, and whether `sep` was found. -/
def Cut (sep : Char) : List Char → List Char × List Char × Bool
  | [] => ([], [], false)
  | c :: cs =>
    if c = sep then ([], cs, true)
    else
      let r := Cut sep cs
      (c :: r.1, r.2.1, r.2.2)

/-- The separator of the keyword blob in the handler: `"\r\n"`. -/
def crlf : List Char := ['\r', '\n']

/-! ## Decimal formatting and quoting -/

/-- Go `%v` of an `int64`: decimal digits, with a leading `-` when negative. -/
def formatInt : Int → List Char
  | Int.ofNat m => Nat.toDigits 10 m
  | Int.negSucc m => '-' :: Nat.toDigits 10 (m + 1)

/-- One character under Go `%q`, for printable ASCII: a double quote and a
backslash get a backslash in front, every other character stands for itself.
(The escapes of control and non-printable characters are left out: the file
names quoted here are digits, `-` and `.txt`.) -/
def quoteChar (c : Char) : List Char :=
  if c = '"' then ['\\', '"'] else if c = '\\' then ['\\', '\\'] else [c]

/-- Go `%q` of a string: the quoted characters between double quotes. -/
def Quote (s : List Char) : List Char :=
  '"' :: (s.flatMap quoteChar ++ ['"'])

/-! ## `net/url`: escaping and `url.Values` -/

/-- Go `utf8.AppendRune`: the UTF-8 bytes of one code point. -/
def utf8EncodeRune (c : Char) : List Nat :=
  let n := c.toNat
  if n < 0x80 then [n]
  else if n < 0x800 then [0xC0 + n / 64, 0x80 + n % 64]
  else if n < 0x10000 then [0xE0 + n / 4096, 0x80 + n / 64 % 64, 0x80 + n % 64]
  else [0xF0 + n / 262144, 0x80 + n / 4096 % 64, 0x80 + n / 64 % 64, 0x80 + n % 64]

/-- The bytes of a Go string. -/
def utf8Bytes (s : List Char) : List Nat :=
  s.flatMap utf8EncodeRune

/-- Go `shouldEscape(c, encodeQueryComponent)` on a byte: only letters, digits
and `-`, `_`, `.`, `~` are left alone. -/
def shouldEscape (c : Nat) : Bool :=
  if (0x61 ≤ c && c ≤ 0x7A) || (0x41 ≤ c && c ≤ 0x5A) || (0x30 ≤ c && c ≤ 0x39) then false
  else if c == 0x2D || c == 0x5F || c == 0x2E || c == 0x7E then false
  else true

/-- Go `upperhex[n]`, the table `"0123456789ABCDEF"`. -/
def upperhex (n : Nat) : Char :=
  ['0', '1', '2', '3', '4', '5', '6', '7', '8', '9', 'A', 'B', 'C', 'D', 'E', 'F'].getD n '0'

/-- One byte under Go `escape(s, encodeQueryComponent)`. -/
def escapeByte (c : Nat) : List Char :=
  if c = 0x20 then ['+']
  else if shouldEscape c then ['%', upperhex (c / 16), upperhex (c % 16)]
  else [Char.ofNat c]

/-- Go `url.QueryEscape`. -/
def QueryEscape (s : List Char) : List Char :=
  (utf8Bytes s).flatMap escapeByte

/-- Go `url.Values`: a map from keys to value lists, kept as an association
list with distinct keys. -/
abbrev Values := List (List Char × List (List Char))

/-- Go `Values.Set`: the key now holds exactly `[value]`. -/
def Values.Set (v : Values) (key value : List Char) : Values :=
  if v.any (fun p => p.1 == key) then
    v.map fun p => if p.1 = key then (p.1, [value]) else p
  else v ++ [(key, [value])]

/-- Go string order `a < b` (byte-wise, which on valid UTF-8 is code point
order). -/
def strLt : List Char → List Char → Bool
  | _, [] => false
  | [], _ :: _ => true
  | a :: as, b :: bs => a.toNat < b.toNat || (a == b && strLt as bs)

/-- Insertion of one entry into a list sorted by key. -/
def insertByKey (p : List Char × List (List Char)) : Values → Values
  | [] => [p]
  | q :: qs => if strLt q.1 p.1 then q :: insertByKey p qs else p :: q :: qs

/-- The entries in the order of `slices.Sort(keys)`. -/
def sortByKey : Values → Values
  | [] => []
  | p :: ps => insertByKey p (sortByKey ps)

/-- Go `Values.Encode`: `key=value` pairs, sorted by key, joined by `&`. -/
def Values.Encode (v : Values) : List Char :=
  (sortByKey v).foldl
    (fun buf p =>
      p.2.foldl
        (fun buf x =>
          (if buf.length > 0 then buf ++ ['&'] else buf)
            ++ QueryEscape p.1 ++ ['='] ++ QueryEscape x)
        buf)
    []

/-! ## `net/url`: decoding -/

/-- Go `ishex` on a character of the escaped text. -/
def ishex (c : Char) : Bool :=
  ('0'.toNat ≤ c.toNat && c.toNat ≤ '9'.toNat)
    || ('a'.toNat ≤ c.toNat && c.toNat ≤ 'f'.toNat)
    || ('A'.toNat ≤ c.toNat && c.toNat ≤ 'F'.toNat)

/-- Go `unhex`: the value of a hexadecimal digit, 0 for anything else. -/
def unhex (c : Char) : Nat :=
  if '0'.toNat ≤ c.toNat && c.toNat ≤ '9'.toNat then c.toNat - '0'.toNat
  else if 'a'.toNat ≤ c.toNat && c.toNat ≤ 'f'.toNat then c.toNat - 'a'.toNat + 10
  else if 'A'.toNat ≤ c.toNat && c.toNat ≤ 'F'.toNat then c.toNat - 'A'.toNat + 10
  else 0

/-- The errors of query decoding: a malformed `%` escape (with the offending
text) and a semicolon used as separator. -/
inductive QueryError where
  | EscapeError (s : List Char)
  | invalidSemicolon
deriving DecidableEq

/-- Go `url.QueryUnescape`: `%XX` becomes the byte `XX`, `+` a space, any
other character its own bytes; a `%` not followed by two hexadecimal digits is
an error. The result is the byte string. -/
def QueryUnescape : List Char → Except QueryError (List Nat)
  | [] => .ok []
  | c :: rest =>
    if c = '%' then
      match rest with
      | h1 :: h2 :: rest2 =>
        if ishex h1 && ishex h2 then
          match QueryUnescape rest2 with
          | .ok t => .ok ((unhex h1 * 16 + unhex h2) :: t)
          | .error err => .error err
        else .error (.EscapeError ((c :: rest).take 3))
      | _ => .error (.EscapeError ((c :: rest).take 3))
    else if c = '+' then
      match QueryUnescape rest with
      | .ok t => .ok (0x20 :: t)
      | .error err => .error err
    else
      match QueryUnescape rest with
      | .ok t => .ok (utf8EncodeRune c ++ t)
      | .error err => .error err

/-- The characters that cut a URL or a query string. -/
def isDelimiter (c : Char) : Bool :=
  c == '&' || c == '=' || c == ';' || c == '?' || c == '#'

/-- Decoded `url.Values`: keys and values are byte strings. -/
abbrev ByteValues := List (List Nat × List (List Nat))

/-- The statement `m[key] = append(m[key], value)`. -/
def ByteValues.add (m : ByteValues) (key value : List Nat) : ByteValues :=
  if m.any (fun p => p.1 == key) then
    m.map fun p => if p.1 = key then (p.1, p.2 ++ [value]) else p
  else m ++ [(key, [value])]

/-- Go `Values.Get`: the first value of the key, the empty string when the
key is absent. -/
def ByteValues.Get (m : ByteValues) (key : List Nat) : List Nat :=
  match m.find? (fun p => p.1 == key) with
  | some p => p.2.headD []
  | none => []

/-- The loop of Go `parseQuery`, at most `fuel` rounds: the text up to the
next `&` is cut at its first `=` and both halves are unescaped. -/
def parseQueryLoop : Nat → List Char → ByteValues × Option QueryError →
    ByteValues × Option QueryError
  | 0, _, acc => acc
  | fuel + 1, query, (m, err) =>
    if query = [] then (m, err)
    else
      let key := (Cut '&' query).1
      let rest := (Cut '&' query).2.1
      if ';' ∈ key then parseQueryLoop fuel rest (m, some .invalidSemicolon)
      else if key = [] then parseQueryLoop fuel rest (m, err)
      else
        match QueryUnescape (Cut '=' key).1 with
        | .error err1 => parseQueryLoop fuel rest (m, if err = none then some err1 else err)
        | .ok k =>
          match QueryUnescape (Cut '=' key).2.1 with
          | .error err1 => parseQueryLoop fuel rest (m, if err = none then some err1 else err)
          | .ok v => parseQueryLoop fuel rest (m.add k v, err)

/-- Go `url.ParseQuery`: the decoded values and the first error met, if any.
Every round takes at least one character, so the fuel never runs out. -/
def ParseQuery (query : List Char) : ByteValues × Option QueryError :=
  parseQueryLoop (query.length + 1) query ([], none)

/-- The `RawQuery` that Go `url.Parse` finds in a URL: the fragment from the
first `#` on is set aside, and the query is what follows the first `?`. -/
def rawQuery (url : List Char) : List Char :=
  (Cut '?' (Cut '#' url).1).2.1

/-! ## The handler -/

/-- The inbound `*http.Request`, as far as the handler reads it: the method
and the form (`PostFormValue` gives the empty string for an absent field). -/
structure Request where
  Method : List Char
  PostFormValue : List Char → List Char

/-- The form field `keywords`. -/
def Request.keywords (r : Request) : List Char := r.PostFormValue "keywords".toList

/-- The form field `lr`. -/
def Request.lr (r : Request) : List Char := r.PostFormValue "lr".toList

/-- The form field `cr`. -/
def Request.cr (r : Request) : List Char := r.PostFormValue "cr".toList

/-- The form field `num`. -/
def Request.num (r : Request) : List Char := r.PostFormValue "num".toList

/-- The outbound request built for one keyword. -/
structure OutRequest where
  Method : List Char
  URL : List Char
  Header : List (List Char × List Char)
deriving DecidableEq

/-- The `*http.Response` of one outbound call. -/
structure Response where
  StatusCode : Nat
  Body : List Char
deriving DecidableEq

/-- One element of `v.Results`. -/
structure Result where
  Link : List Char
deriving DecidableEq

/-- The anonymous struct `v` the body is decoded into. -/
structure V where
  Results : List Result
deriving DecidableEq

/-- The error values of the per-keyword closure: the sentinel
`ErrRateLimitExceeded` and the three `fmt.Errorf` values, each kept with the
arguments it is formatted from. -/
inductive Err where
  | ErrRateLimitExceeded
  | requestFailed (kw : List Char) (cause : List Char)
  | statusNotOkay (StatusCode : Nat) (kw : List Char)
  | decodeFailed (kw : List Char) (cause : List Char)
deriving DecidableEq

/-- The keyword an error message names, if any (`kw=%q`). -/
def Err.keyword : Err → Option (List Char)
  | .ErrRateLimitExceeded => none
  | .requestFailed kw _ => some kw
  | .statusNotOkay _ kw => some kw
  | .decodeFailed kw _ => some kw

/-- Go `errors.Is(err, ErrRateLimitExceeded)`. -/
def Err.isRateLimit : Err → Bool
  | .ErrRateLimitExceeded => true
  | _ => false

/-- The world outside the handler. `Do i req` is what
`http.DefaultClient.Do(req)` returns in the `i`-th iteration of the keyword
loop (a transport error or a response); `Decode body` is what
`json.NewDecoder(body).Decode(&v)` leaves (an error or the filled `v`). -/
structure World where
  apiKey : List Char
  now : Int
  createOk : Bool
  Do : Nat → OutRequest → Except (List Char) Response
  Decode : List Char → Except (List Char) V

/-- An output file: its name and its content. -/
structure File where
  Name : List Char
  content : List Char
deriving DecidableEq

/-- What the handler has done so far: the file created by `os.Create` (if
any), the outbound requests passed to `Do`, the lines of `log.Println` and the
responses written to stderr. -/
structure Effects where
  outFile : Option File
  calls : List OutRequest
  log : List Err
  stderr : List Response
deriving DecidableEq

/-- No effect at all. -/
def Effects.none : Effects := ⟨Option.none, [], [], []⟩

/-- Go `fmt.Fprintln(outFile, link)`: the link and a newline are appended. -/
def Fprintln (e : Effects) (link : List Char) : Effects :=
  { e with outFile := e.outFile.map fun f => { f with content := f.content ++ link ++ ['\n'] } }

/-- The fixed address every outbound request starts with. -/
def endpoint : List Char := "https://rapidapi.p.rapidapi.com/api/v1/search/".toList

/-- The `url.Values` built for one keyword. -/
def buildQuery (kw lr cr num : List Char) : Values :=
  Values.Set (Values.Set (Values.Set (Values.Set [] "q".toList kw) "lr".toList lr)
    "cr".toList cr) "num".toList num

/-- The outbound request for one (trimmed) keyword: method, URL and the two
headers, their names as the source writes them. -/
def buildRequest (apiKey kw lr cr num : List Char) : OutRequest :=
  { Method := "GET".toList
    URL := endpoint ++ Values.Encode (buildQuery kw lr cr num)
    Header := [("X-RapidAPI-Host".toList, "google-search3.p.rapidapi.com".toList),
               ("X-RapidAPI-Key".toList, apiKey)] }

/-- The query parameters of an outbound request, Go `req.URL.Query()`. -/
def OutRequest.Query (req : OutRequest) : ByteValues :=
  (ParseQuery (rawQuery req.URL)).1

/-- The closure run for one entry of `keywords` in iteration `i`: the effects
after it and the error it returns (`none` for `nil`). -/
def processKeyword (w : World) (lr cr num : List Char) (i : Nat) (kw : List Char)
    (e : Effects) : Effects × Option Err :=
  let kw := TrimSpace kw
  if kw = [] then (e, none)
  else
    let req := buildRequest w.apiKey kw lr cr num
    let e := { e with calls := e.calls ++ [req] }
    match w.Do i req with
    | .error cause => (e, some (.requestFailed kw cause))
    | .ok resp =>
      if resp.StatusCode = 429 then (e, some .ErrRateLimitExceeded)
      else if resp.StatusCode ≠ 200 then
        ({ e with stderr := e.stderr ++ [resp] }, some (.statusNotOkay resp.StatusCode kw))
      else
        match w.Decode resp.Body with
        | .error cause => (e, some (.decodeFailed kw cause))
        | .ok v => (v.Results.foldl (fun e result => Fprintln e result.Link) e, none)

/-- The loop `for _, kw := range keywords`, from iteration `i` on: a
rate-limit error breaks out of it, any other error is logged. The flag tells
whether the loop was left by `break`. -/
def keywordLoop (w : World) (lr cr num : List Char) :
    Nat → List (List Char) → Effects → Effects × Bool
  | _, [], e => (e, false)
  | i, kw :: rest, e =>
    match processKeyword w lr cr num i kw e with
    | (e1, none) => keywordLoop w lr cr num (i + 1) rest e1
    | (e1, some err) =>
      if err.isRateLimit then (e1, true)
      else keywordLoop w lr cr num (i + 1) rest { e1 with log := e1.log ++ [err] }

/-- How the handler ends: a response written to the caller, or the `panic` of
a failed `os.Create`. -/
inductive Reply where
  | response (status : Nat) (body : List Char)
  | panicked
deriving DecidableEq

/-- The name of the output file: `fmt.Sprintf("%v.txt", time.Now().UnixNano())`. -/
def outFileName (now : Int) : List Char := formatInt now ++ ".txt".toList

/-- The handler registered for `/search`. -/
def searchHandler (w : World) (r : Request) : Effects × Reply :=
  if r.Method ≠ "POST".toList then
    (Effects.none, .response 405 "Method Not Allowed\n".toList)
  else if w.createOk = false then (Effects.none, .panicked)
  else
    let outFile : File := ⟨outFileName w.now, []⟩
    let keywords := Split (r.PostFormValue "keywords".toList) crlf
    let lr := r.PostFormValue "lr".toList
    let cr := r.PostFormValue "cr".toList
    let num := r.PostFormValue "num".toList
    let e := (keywordLoop w lr cr num 0 keywords { Effects.none with outFile := some outFile }).1
    (e, .response 200 ("Done. See ".toList ++ Quote outFile.Name ++ ".".toList))

/-- The effects of the handler's loop on a given list of entries, for the
form fields of `r` and a freshly created output file. -/
def batch (w : World) (r : Request) (keywords : List (List Char)) : Effects :=
  (keywordLoop w r.lr r.cr r.num 0 keywords
    { Effects.none with outFile := some ⟨outFileName w.now, []⟩ }).1

/-- The world in which the call of iteration `k` never happens: every later
iteration gets the answer it gets in `w` one iteration later. -/
def World.skip (w : World) (k : Nat) : World :=
  { w with Do := fun j req => if j < k then w.Do j req else w.Do (j + 1) req }

/-! ## The specification's vocabulary -/

/-- The Search Outcome of the specification. -/
inductive Outcome where
  | Success (links : List (List Char))
  | NetworkFailure (kw : List Char) (cause : List Char)
  | RateLimited
  | StatusFailure (kw : List Char) (status : Nat) (raw : Response)
  | DecodeFailure (kw : List Char) (cause : List Char)
deriving DecidableEq

/-- The three recoverable failure kinds. -/
def Outcome.isFailure : Outcome → Bool
  | .NetworkFailure _ _ => true
  | .StatusFailure _ _ _ => true
  | .DecodeFailure _ _ => true
  | _ => false

/-- The status classification of the specification, in its priority order:
transport failure, then 429, then any other non-200 status, then a body that
does not decode, then success with the links in response order. -/
def classify (decode : List Char → Except (List Char) V) (kw : List Char) :
    Except (List Char) Response → Outcome
  | .error cause => .NetworkFailure kw cause
  | .ok resp =>
    if resp.StatusCode = 429 then .RateLimited
    else if resp.StatusCode ≠ 200 then .StatusFailure kw resp.StatusCode resp
    else
      match decode resp.Body with
      | .error cause => .DecodeFailure kw cause
      | .ok v => .Success (v.Results.map fun result => result.Link)

/-- What the closure hands back for an outcome: the links of a success go to
the file and `nil` is returned; every other outcome is an error value, and a
status failure also dumps the response on stderr. -/
def deliver (e : Effects) : Outcome → Effects × Option Err
  | .Success links => (links.foldl Fprintln e, none)
  | .NetworkFailure kw cause => (e, some (.requestFailed kw cause))
  | .RateLimited => (e, some .ErrRateLimitExceeded)
  | .StatusFailure kw status raw =>
    ({ e with stderr := e.stderr ++ [raw] }, some (.statusNotOkay status kw))
  | .DecodeFailure kw cause => (e, some (.decodeFailed kw cause))

/-- The outcome of the entry `kw` when it is reached in iteration `i`: none
for a blank entry, which is never dispatched. -/
def outcomeAt (w : World) (lr cr num : List Char) (i : Nat) (kw : List Char) :
    Option Outcome :=
  if TrimSpace kw = [] then none
  else some (classify w.Decode (TrimSpace kw)
    (w.Do i (buildRequest w.apiKey (TrimSpace kw) lr cr num)))

/-- The outcomes of a list of entries whose first entry is reached in
iteration `i`. -/
def outcomes (w : World) (lr cr num : List Char) (i : Nat) (keywords : List (List Char)) :
    List (Option Outcome) :=
  (keywords.enumFrom i).map fun p => outcomeAt w lr cr num p.1 p.2

/-- The outcomes met before any rate-limit abort. -/
def beforeAbort (os : List (Option Outcome)) : List (Option Outcome) :=
  os.takeWhile fun o => decide (o ≠ some Outcome.RateLimited)

/-- The links an outcome contributes: those of a success, none otherwise. -/
def linksOf : Option Outcome → List (List Char)
  | some (.Success links) => links
  | _ => []

/-- The links the specification expects in the output file of a request. -/
def expectedLinks (w : World) (r : Request) : List (List Char) :=
  (beforeAbort (outcomes w r.lr r.cr r.num 0 (Split r.keywords crlf))).flatMap linksOf

/-- A file content as one line per link: each link followed by a newline. -/
def asLines (links : List (List Char)) : List Char :=
  links.flatMap fun link => link ++ ['\n']

/-- The lines of a file content: the texts ended by a newline, and the rest
after the last newline when it is not empty. -/
def fileLines : List Char → List (List Char)
  | [] => []
  | c :: cs =>
    if c = '\n' then [] :: fileLines cs
    else
      match fileLines cs with
      | [] => [[c]]
      | l :: ls => (c :: l) :: ls

/-- The entries of a blob when every line break, `"\r\n"` or a bare `"\n"`,
ends an entry. -/
def splitLineBreaks : List Char → List (List Char)
  | [] => [[]]
  | [c] => if c = '\n' then [[], []] else [[c]]
  | c :: d :: rest =>
    if c = '\n' then [] :: splitLineBreaks (d :: rest)
    else if c = '\r' ∧ d = '\n' then [] :: splitLineBreaks rest
    else
      match splitLineBreaks (d :: rest) with
      | [] => [[c]]
      | l :: ls => (c :: l) :: ls

/-- The keywords of a blob as the specification words them: split on line
breaks, trim, drop the empty entries. -/
def specKeywords (blob : List Char) : List (List Char) :=
  ((splitLineBreaks blob).map TrimSpace).filter fun k => decide (k ≠ [])

/-- The keywords of a blob as the handler cuts them: split on `"\r\n"` only,
trim, drop the empty entries. -/
def crlfKeywords (blob : List Char) : List (List Char) :=
  ((Split blob crlf).map TrimSpace).filter fun k => decide (k ≠ [])

/-- A string with no white space at either end. -/
def Trimmed (s : List Char) : Prop :=
  (∀ c, s.head? = some c → IsSpace c = false) ∧ (∀ c, s.getLast? = some c → IsSpace c = false)

/-! ## What a run of the loop adds -/

/-- The additions of a stretch of the loop to the effects: the text written
to the file, the calls, the log lines and the stderr dumps. -/
structure Delta where
  written : List Char
  calls : List OutRequest
  log : List Err
  stderr : List Response

/-- Nothing added. -/
def Delta.zero : Delta := ⟨[], [], [], []⟩

/-- One stretch after another. -/
def Delta.append (a b : Delta) : Delta :=
  ⟨a.written ++ b.written, a.calls ++ b.calls, a.log ++ b.log, a.stderr ++ b.stderr⟩

/-- The effects with the additions of a stretch. -/
def Effects.add (e : Effects) (d : Delta) : Effects :=
  { outFile := e.outFile.map fun f => { f with content := f.content ++ d.written }
    calls := e.calls ++ d.calls
    log := e.log ++ d.log
    stderr := e.stderr ++ d.stderr }

/-- What a dispatched keyword adds, log line of the loop included. -/
def outcomeDelta (req : OutRequest) : Outcome → Delta
  | .Success links => ⟨asLines links, [req], [], []⟩
  | .NetworkFailure kw cause => ⟨[], [req], [.requestFailed kw cause], []⟩
  | .RateLimited => ⟨[], [req], [], []⟩
  | .StatusFailure kw status raw => ⟨[], [req], [.statusNotOkay status kw], [raw]⟩
  | .DecodeFailure kw cause => ⟨[], [req], [.decodeFailed kw cause], []⟩

/-- What the loop adds from iteration `i` on, and whether it breaks. -/
def loopDelta (w : World) (lr cr num : List Char) : Nat → List (List Char) → Delta × Bool
  | _, [] => (Delta.zero, false)
  | i, kw :: rest =>
    match outcomeAt w lr cr num i kw with
    | none => loopDelta w lr cr num (i + 1) rest
    | some o =>
      let d := outcomeDelta (buildRequest w.apiKey (TrimSpace kw) lr cr num) o
      if o = Outcome.RateLimited then (d, true)
      else ((d.append (loopDelta w lr cr num (i + 1) rest).1),
            (loopDelta w lr cr num (i + 1) rest).2)

/-! ## Sample inputs -/

/-- A world whose `i`-th iteration gets the `i`-th of the listed answers (200
with body `ok` beyond the list), whose decoder reads the body `ok` as two
links and the body `nl` as one link holding a newline, and rejects any other
body. -/
def sampleWorld (answers : List (Except (List Char) Response)) : World :=
  { apiKey := "key".toList
    now := 1700000000000000000
    createOk := true
    Do := fun i _ => answers.getD i (.ok ⟨200, "ok".toList⟩)
    Decode := fun body =>
      if body = "ok".toList then .ok ⟨[⟨"http://x".toList⟩, ⟨"http://y".toList⟩]⟩
      else if body = "nl".toList then .ok ⟨[⟨"a\nb".toList⟩]⟩
      else .error "unexpected body".toList }

/-- A request with the given method and keyword blob, `lr = "lang_en"`, an
empty `cr` and `num = "10"`. -/
def sampleRequest (method blob : List Char) : Request :=
  { Method := method
    PostFormValue := fun k =>
      if k = "keywords".toList then blob
      else if k = "lr".toList then "lang_en".toList
      else if k = "num".toList then "10".toList
      else [] }

/-! ## Lemmas on the loop -/

theorem Effects.add_zero (e : Effects) : e.add Delta.zero = e := by
  cases e with
  | mk f c l s =>
    cases f <;> simp [Effects.add, Delta.zero]

theorem Effects.add_add (e : Effects) (a b : Delta) :
    (e.add a).add b = e.add (a.append b) := by
  cases e with
  | mk f c l s =>
    cases f <;> simp [Effects.add, Delta.append]

theorem foldl_Fprintln (links : List (List Char)) (e : Effects) :
    links.foldl Fprintln e = e.add ⟨asLines links, [], [], []⟩ := by
  induction links generalizing e with
  | nil =>
    have := Effects.add_zero e
    simpa [asLines, Delta.zero] using this.symm
  | cons l ls ih =>
    rw [List.foldl_cons, ih]
    cases e with
    | mk f c lg s =>
      cases f <;> simp [Effects.add, Fprintln, asLines]

theorem processKeyword_blank (w : World) (lr cr num : List Char) (i : Nat) (kw : List Char)
    (e : Effects) (h : TrimSpace kw = []) :
    processKeyword w lr cr num i kw e = (e, none) := by
  simp [processKeyword, h]

theorem processKeyword_deliver (w : World) (lr cr num : List Char) (i : Nat) (kw : List Char)
    (e : Effects) (h : TrimSpace kw ≠ []) :
    processKeyword w lr cr num i kw e
      = deliver { e with calls := e.calls ++ [buildRequest w.apiKey (TrimSpace kw) lr cr num] }
          (classify w.Decode (TrimSpace kw)
            (w.Do i (buildRequest w.apiKey (TrimSpace kw) lr cr num))) := by
  simp only [processKeyword, h, if_false]
  cases hd : w.Do i (buildRequest w.apiKey (TrimSpace kw) lr cr num) with
  | error cause => simp [classify, deliver]
  | ok resp =>
    simp only [classify]
    by_cases h1 : resp.StatusCode = 429
    · simp [h1, deliver]
    · by_cases h2 : resp.StatusCode = 200
      · simp only [h1, h2, if_false, ne_eq, not_true_eq_false]
        cases hv : w.Decode resp.Body with
        | error cause => simp [deliver]
        | ok v => simp [deliver, List.foldl_map]
      · simp [h1, h2, deliver]

theorem deliver_calls (e : Effects) (o : Outcome) : (deliver e o).1.calls = e.calls := by
  cases o <;> simp [deliver, foldl_Fprintln, Effects.add]

theorem Delta.zero_append (d : Delta) : Delta.zero.append d = d := by
  cases d; simp [Delta.append, Delta.zero]

theorem Delta.append_assoc (a b c : Delta) : (a.append b).append c = a.append (b.append c) := by
  simp [Delta.append]

theorem keywordLoop_eq (w : World) (lr cr num : List Char) (keywords : List (List Char)) :
    ∀ (i : Nat) (e : Effects),
      keywordLoop w lr cr num i keywords e
        = (e.add (loopDelta w lr cr num i keywords).1, (loopDelta w lr cr num i keywords).2) := by
  induction keywords with
  | nil => intro i e; simp [keywordLoop, loopDelta, Effects.add_zero]
  | cons kw rest ih =>
    intro i e
    by_cases hb : TrimSpace kw = []
    · simp only [keywordLoop, loopDelta, processKeyword_blank w lr cr num i kw e hb, outcomeAt, hb,
        if_true]
      exact ih (i + 1) e
    · rw [keywordLoop, processKeyword_deliver w lr cr num i kw e hb]
      simp only [loopDelta, outcomeAt, hb, if_false]
      generalize classify w.Decode (TrimSpace kw)
        (w.Do i (buildRequest w.apiKey (TrimSpace kw) lr cr num)) = o
      cases o with
      | Success links =>
        simp only [deliver, foldl_Fprintln, ih, Effects.add_add, outcomeDelta, reduceCtorEq,
          if_false]
        simp [Effects.add, Delta.append]
      | NetworkFailure k c =>
        simp only [deliver, Err.isRateLimit, ih, outcomeDelta, reduceCtorEq, if_false]
        simp [Effects.add, Delta.append]
      | RateLimited =>
        simp [deliver, Err.isRateLimit, outcomeDelta, Effects.add]
      | StatusFailure k st raw =>
        simp only [deliver, Err.isRateLimit, ih, outcomeDelta, reduceCtorEq, if_false]
        simp [Effects.add, Delta.append]
      | DecodeFailure k c =>
        simp only [deliver, Err.isRateLimit, ih, outcomeDelta, reduceCtorEq, if_false]
        simp [Effects.add, Delta.append]

theorem outcomes_nil (w : World) (lr cr num : List Char) (i : Nat) :
    outcomes w lr cr num i [] = [] := by
  simp [outcomes]

theorem outcomes_cons (w : World) (lr cr num : List Char) (i : Nat) (kw : List Char)
    (rest : List (List Char)) :
    outcomes w lr cr num i (kw :: rest)
      = outcomeAt w lr cr num i kw :: outcomes w lr cr num (i + 1) rest := by
  simp [outcomes, List.enumFrom]

theorem loopDelta_append (w : World) (lr cr num : List Char) (a b : List (List Char)) :
    ∀ i : Nat, loopDelta w lr cr num i (a ++ b)
      = if (loopDelta w lr cr num i a).2 then loopDelta w lr cr num i a
        else ((loopDelta w lr cr num i a).1.append (loopDelta w lr cr num (i + a.length) b).1,
              (loopDelta w lr cr num (i + a.length) b).2) := by
  induction a with
  | nil => intro i; simp [loopDelta, Delta.zero_append]
  | cons k ks ih =>
    intro i
    have e1 := ih (i + 1)
    rw [show i + 1 + ks.length = i + (ks.length + 1) by omega] at e1
    simp only [List.cons_append, loopDelta, List.length_cons]
    cases ho : outcomeAt w lr cr num i k with
    | none => simpa using e1
    | some o =>
      by_cases hr : o = Outcome.RateLimited
      · simp [hr]
      · simp only [hr, if_false, List.append_eq, e1]
        by_cases hb : (loopDelta w lr cr num (i + 1) ks).2 = true
        · simp [hb]
        · simp [hb, Delta.append_assoc]

theorem loopDelta_noBreak (w : World) (lr cr num : List Char) (a : List (List Char)) :
    ∀ i : Nat, some Outcome.RateLimited ∉ outcomes w lr cr num i a →
      (loopDelta w lr cr num i a).2 = false := by
  induction a with
  | nil => intro i _; simp [loopDelta]
  | cons k ks ih =>
    intro i h
    rw [outcomes_cons] at h
    simp only [List.mem_cons, not_or] at h
    simp only [loopDelta]
    cases ho : outcomeAt w lr cr num i k with
    | none => exact ih (i + 1) h.2
    | some o =>
      have hr : o ≠ Outcome.RateLimited := by
        intro hc; apply h.1; rw [ho, hc]
      simp only [hr, if_false]
      exact ih (i + 1) h.2

theorem outcomeAt_skip (w : World) (lr cr num : List Char) (k j : Nat) (kw : List Char) :
    outcomeAt (w.skip k) lr cr num j kw
      = outcomeAt w lr cr num (if j < k then j else j + 1) kw := by
  by_cases h : j < k <;> simp [outcomeAt, World.skip, h]

theorem loopDelta_skip_after (w : World) (lr cr num : List Char) (k : Nat)
    (ks : List (List Char)) :
    ∀ i : Nat, k ≤ i →
      loopDelta (w.skip k) lr cr num i ks = loopDelta w lr cr num (i + 1) ks := by
  induction ks with
  | nil => intro i _; simp [loopDelta]
  | cons kw rest ih =>
    intro i hi
    have hlt : ¬ i < k := by omega
    have hw : (w.skip k).apiKey = w.apiKey := rfl
    simp only [loopDelta, outcomeAt_skip, hlt, if_false, ih (i + 1) (by omega), hw]

theorem loopDelta_skip_before (w : World) (lr cr num : List Char) (k : Nat)
    (ks : List (List Char)) :
    ∀ i : Nat, i + ks.length ≤ k →
      loopDelta (w.skip k) lr cr num i ks = loopDelta w lr cr num i ks := by
  induction ks with
  | nil => intro i _; simp [loopDelta]
  | cons kw rest ih =>
    intro i hi
    simp only [List.length_cons] at hi
    have hlt : i < k := by omega
    have hw : (w.skip k).apiKey = w.apiKey := rfl
    simp only [loopDelta, outcomeAt_skip, hlt, if_true, ih (i + 1) (by omega), hw]

theorem loopDelta_written (w : World) (lr cr num : List Char) (ks : List (List Char)) :
    ∀ i : Nat, (loopDelta w lr cr num i ks).1.written
      = asLines ((beforeAbort (outcomes w lr cr num i ks)).flatMap linksOf) := by
  induction ks with
  | nil => intro i; simp [loopDelta, outcomes_nil, beforeAbort, asLines, Delta.zero]
  | cons kw rest ih =>
    intro i
    simp only [loopDelta, outcomes_cons, beforeAbort]
    cases ho : outcomeAt w lr cr num i kw with
    | none =>
      have := ih (i + 1)
      simp only [beforeAbort] at this
      simp [List.takeWhile_cons, linksOf, this]
    | some o =>
      have := ih (i + 1)
      simp only [beforeAbort] at this
      cases o with
      | RateLimited => simp [List.takeWhile_cons, outcomeDelta, asLines]
      | Success links =>
        simp [List.takeWhile_cons, outcomeDelta, Delta.append, linksOf, this, asLines]
      | NetworkFailure a b =>
        simp [List.takeWhile_cons, outcomeDelta, Delta.append, linksOf, this]
      | StatusFailure a b c =>
        simp [List.takeWhile_cons, outcomeDelta, Delta.append, linksOf, this]
      | DecodeFailure a b =>
        simp [List.takeWhile_cons, outcomeDelta, Delta.append, linksOf, this]

theorem loopDelta_calls_noBreak (w : World) (lr cr num : List Char) (ks : List (List Char)) :
    ∀ i : Nat, some Outcome.RateLimited ∉ outcomes w lr cr num i ks →
      (loopDelta w lr cr num i ks).1.calls
        = ((ks.map TrimSpace).filter fun k => decide (k ≠ [])).map
            fun k => buildRequest w.apiKey k lr cr num := by
  induction ks with
  | nil => intro i _; simp [loopDelta, Delta.zero]
  | cons kw rest ih =>
    intro i h
    rw [outcomes_cons] at h
    simp only [List.mem_cons, not_or] at h
    simp only [loopDelta]
    cases ho : outcomeAt w lr cr num i kw with
    | none =>
      have hb : TrimSpace kw = [] := by
        by_contra hne
        simp [outcomeAt, hne] at ho
      simp [hb, ih (i + 1) h.2]
    | some o =>
      have hb : TrimSpace kw ≠ [] := by
        intro hne
        simp [outcomeAt, hne] at ho
      have hr : o ≠ Outcome.RateLimited := by
        intro hc; apply h.1; rw [ho, hc]
      simp only [hr, if_false, Delta.append, ih (i + 1) h.2]
      cases o <;> simp_all [outcomeDelta]

theorem loopDelta_blank (w : World) (lr cr num : List Char) (ks : List (List Char))
    (h : ∀ k ∈ ks, TrimSpace k = []) :
    ∀ i : Nat, loopDelta w lr cr num i ks = (Delta.zero, false) := by
  induction ks with
  | nil => intro i; simp [loopDelta]
  | cons k rest ih =>
    intro i
    have hk : TrimSpace k = [] := h k (List.mem_cons_self _ _)
    simp only [loopDelta, outcomeAt, hk, if_true]
    exact ih (fun k2 hk2 => h k2 (List.mem_cons_of_mem _ hk2)) (i + 1)

theorem loopDelta_add_name (e : Effects) (d : Delta) :
    (e.add d).outFile.map File.Name = e.outFile.map File.Name := by
  cases e with
  | mk f c l s => cases f <;> simp [Effects.add]

theorem searchHandler_post (w : World) (r : Request) (hm : r.Method = "POST".toList)
    (hc : w.createOk = true) :
    searchHandler w r
      = (batch w r (Split r.keywords crlf),
         Reply.response 200
          ("Done. See ".toList ++ Quote (outFileName w.now) ++ ".".toList)) := by
  simp [searchHandler, batch, hm, hc, Request.keywords, Request.lr, Request.cr, Request.num]

theorem batch_eq (w : World) (r : Request) (ks : List (List Char)) :
    batch w r ks
      = Effects.add { Effects.none with outFile := some ⟨outFileName w.now, []⟩ }
          (loopDelta w r.lr r.cr r.num 0 ks).1 := by
  simp [batch, keywordLoop_eq]

theorem beforeAbort_of_not_mem (os : List (Option Outcome))
    (h : some Outcome.RateLimited ∉ os) : beforeAbort os = os := by
  unfold beforeAbort
  rw [List.takeWhile_eq_self_iff]
  intro x hx
  have hne : x ≠ some Outcome.RateLimited := fun hx2 => h (hx2 ▸ hx)
  simpa using hne

theorem outcomeAt_some_trim (w : World) (lr cr num : List Char) (i : Nat) (kw : List Char)
    (o : Outcome) (h : outcomeAt w lr cr num i kw = some o) :
    TrimSpace kw ≠ [] ∧ o = classify w.Decode (TrimSpace kw)
      (w.Do i (buildRequest w.apiKey (TrimSpace kw) lr cr num)) := by
  by_cases hb : TrimSpace kw = []
  · simp [outcomeAt, hb] at h
  · simp only [outcomeAt, hb, if_false, Option.some.injEq] at h
    exact ⟨hb, h.symm⟩

theorem classify_failure_delta (decode : List Char → Except (List Char) V) (k : List Char)
    (res : Except (List Char) Response) (req : OutRequest)
    (h : (classify decode k res).isFailure = true) :
    ∃ err dump, err.keyword = some k ∧ err.isRateLimit = false ∧
      outcomeDelta req (classify decode k res) = ⟨[], [req], [err], dump⟩ := by
  cases res with
  | error cause =>
    exact ⟨.requestFailed k cause, [], rfl, rfl, rfl⟩
  | ok resp =>
    simp only [classify] at h ⊢
    by_cases h1 : resp.StatusCode = 429
    · simp [h1, Outcome.isFailure] at h
    · by_cases h2 : resp.StatusCode = 200
      · simp only [h1, h2, if_false, ne_eq, not_true_eq_false] at h ⊢
        cases hv : decode resp.Body with
        | error cause =>
          exact ⟨.decodeFailed k cause, [], rfl, rfl, by simp [outcomeDelta]⟩
        | ok v => simp [hv, Outcome.isFailure] at h
      · refine ⟨.statusNotOkay resp.StatusCode k, [resp], rfl, rfl, ?_⟩
        simp [h1, h2, outcomeDelta]

/-! ## Lemmas on strings -/

theorem splitAux_chars (sep : List Char) (s : List Char) :
    ∀ (skip : Nat) (cur : List Char), ∀ p ∈ splitAux sep skip cur s, ∀ c ∈ p,
      c ∈ cur ∨ c ∈ s := by
  induction s with
  | nil =>
    intro skip cur p hp c hc
    simp only [splitAux, List.mem_singleton] at hp
    subst hp
    left
    simpa using hc
  | cons a rest ih =>
    intro skip cur p hp c hc
    cases skip with
    | succ k =>
      simp only [splitAux] at hp
      rcases ih k cur p hp c hc with h | h
      · exact Or.inl h
      · exact Or.inr (List.mem_cons_of_mem _ h)
    | zero =>
      simp only [splitAux] at hp
      split at hp
      · rcases List.mem_cons.mp hp with h | h
        · subst h
          left
          simpa using hc
        · rcases ih _ [] p h c hc with h2 | h2
          · simp at h2
          · exact Or.inr (List.mem_cons_of_mem _ h2)
      · rcases ih _ (a :: cur) p hp c hc with h2 | h2
        · rcases List.mem_cons.mp h2 with h3 | h3
          · right; rw [h3]; exact List.mem_cons_self _ _
          · exact Or.inl h3
        · exact Or.inr (List.mem_cons_of_mem _ h2)

theorem Split_crlf_chars (s : List Char) :
    ∀ p ∈ Split s crlf, ∀ c ∈ p, c ∈ s := by
  intro p hp c hc
  have hne : crlf ≠ [] := by decide
  simp only [Split, hne, if_false] at hp
  rcases splitAux_chars crlf s 0 [] p hp c hc with h | h
  · simp at h
  · exact h

theorem TrimSpace_of_all_space (s : List Char) (h : ∀ c ∈ s, IsSpace c = true) :
    TrimSpace s = [] := by
  have : s.dropWhile IsSpace = [] := List.dropWhile_eq_nil_iff.mpr h
  simp [TrimSpace, this]

theorem TrimSpace_trimmed (s : List Char) : Trimmed (TrimSpace s) := by
  constructor
  · intro c hc
    have hp : TrimSpace s <+: s.dropWhile IsSpace := by
      have := @List.rdropWhile_prefix _ IsSpace (s.dropWhile IsSpace)
      simpa [TrimSpace, List.rdropWhile] using this
    obtain ⟨t, ht⟩ := hp
    have hh : (s.dropWhile IsSpace).head? = some c := by
      rw [← ht]
      cases hts : TrimSpace s with
      | nil => rw [hts] at hc; simp at hc
      | cons a rest => rw [hts] at hc; simpa using hc
    have := List.head?_dropWhile_not IsSpace s
    rw [hh] at this
    exact this
  · intro c hc
    have hh : ((s.dropWhile IsSpace).reverse.dropWhile IsSpace).head? = some c := by
      simpa [TrimSpace] using hc
    have := List.head?_dropWhile_not IsSpace (s.dropWhile IsSpace).reverse
    rw [hh] at this
    exact this

theorem TrimSpace_of_trimmed (s : List Char) (h : Trimmed s) : TrimSpace s = s := by
  have h1 : s.dropWhile IsSpace = s := by
    cases s with
    | nil => rfl
    | cons a rest =>
      have := h.1 a rfl
      simp [List.dropWhile_cons, this]
  have h2 : s.reverse.dropWhile IsSpace = s.reverse := by
    cases hr : s.reverse with
    | nil => rfl
    | cons a rest =>
      have hl : s.getLast? = some a := by
        rw [← List.head?_reverse, hr]; rfl
      have := h.2 a hl
      simp [List.dropWhile_cons, this]
  rw [TrimSpace, h1, h2, List.reverse_reverse]

theorem fileLines_line (l rest : List Char) (h : '\n' ∉ l) :
    fileLines (l ++ '\n' :: rest) = l :: fileLines rest := by
  induction l with
  | nil => simp [fileLines]
  | cons a t ih =>
    simp only [List.mem_cons, not_or] at h
    have ha : a ≠ '\n' := fun hc => h.1 hc.symm
    simp [fileLines, ha, ih h.2]

theorem fileLines_asLines (links : List (List Char)) (h : ∀ l ∈ links, '\n' ∉ l) :
    fileLines (asLines links) = links := by
  induction links with
  | nil => simp [asLines, fileLines]
  | cons l rest ih =>
    have hl := h l (List.mem_cons_self _ _)
    have hr := ih (fun x hx => h x (List.mem_cons_of_mem _ hx))
    simp only [asLines] at hr
    simp only [asLines, List.flatMap_cons, List.append_assoc, List.singleton_append]
    rw [fileLines_line l _ hl, hr]

theorem Cut_found (sep : Char) (a b : List Char) (h : sep ∉ a) :
    Cut sep (a ++ sep :: b) = (a, b, true) := by
  induction a with
  | nil => simp [Cut]
  | cons x t ih =>
    simp only [List.mem_cons, not_or] at h
    have hx : x ≠ sep := fun hc => h.1 hc.symm
    simp [Cut, hx, ih h.2]

theorem Cut_absent (sep : Char) (a : List Char) (h : sep ∉ a) :
    Cut sep a = (a, [], false) := by
  induction a with
  | nil => simp [Cut]
  | cons x t ih =>
    simp only [List.mem_cons, not_or] at h
    have hx : x ≠ sep := fun hc => h.1 hc.symm
    simp [Cut, hx, ih h.2]

/-! ## Lemmas on the file name -/

theorem toDigitsCore_chars (fuel : Nat) :
    ∀ (n : Nat) (ds : List Char), ∀ c ∈ Nat.toDigitsCore 10 fuel n ds,
      c ∈ ds ∨ c.isDigit = true := by
  induction fuel with
  | zero => intro n ds c hc; simp only [Nat.toDigitsCore] at hc; exact Or.inl hc
  | succ k ih =>
    intro n ds c hc
    have hd : (Nat.digitChar (n % 10)).isDigit = true := by
      have hlt : n % 10 < 10 := Nat.mod_lt _ (by decide)
      generalize n % 10 = d at hlt
      interval_cases d <;> decide
    simp only [Nat.toDigitsCore] at hc
    split at hc
    · rcases List.mem_cons.mp hc with h | h
      · right; rw [h]; exact hd
      · exact Or.inl h
    · rcases ih _ _ c hc with h | h
      · rcases List.mem_cons.mp h with h2 | h2
        · right; rw [h2]; exact hd
        · exact Or.inl h2
      · exact Or.inr h

theorem quoteChar_of_plain (c : Char) (h1 : c ≠ '"') (h2 : c ≠ '\\') : quoteChar c = [c] := by
  simp [quoteChar, h1, h2]

theorem quoteChar_of_digit (c : Char) (h : c.isDigit = true) : quoteChar c = [c] := by
  apply quoteChar_of_plain
  · intro hc; rw [hc] at h; exact absurd h (by decide)
  · intro hc; rw [hc] at h; exact absurd h (by decide)

theorem flatMap_quoteChar (s : List Char) (h : ∀ c ∈ s, quoteChar c = [c]) :
    s.flatMap quoteChar = s := by
  induction s with
  | nil => rfl
  | cons a rest ih =>
    rw [List.flatMap_cons, h a (List.mem_cons_self _ _),
      ih (fun c hc => h c (List.mem_cons_of_mem _ hc))]
    rfl

theorem quoteChar_formatInt (now : Int) : ∀ c ∈ formatInt now, quoteChar c = [c] := by
  intro c hc
  cases now with
  | ofNat m =>
    simp only [formatInt, Nat.toDigits] at hc
    rcases toDigitsCore_chars _ _ _ c hc with h | h
    · simp at h
    · exact quoteChar_of_digit c h
  | negSucc m =>
    simp only [formatInt, Nat.toDigits] at hc
    rcases List.mem_cons.mp hc with h | h
    · rw [h]; decide
    · rcases toDigitsCore_chars _ _ _ c h with h2 | h2
      · simp at h2
      · exact quoteChar_of_digit c h2

theorem Quote_outFileName (now : Int) :
    Quote (outFileName now) = '"' :: (outFileName now ++ ['"']) := by
  have h : ∀ c ∈ outFileName now, quoteChar c = [c] := by
    intro c hc
    simp only [outFileName, List.mem_append] at hc
    rcases hc with h | h
    · exact quoteChar_formatInt now c h
    · have : ∀ d ∈ ".txt".toList, quoteChar d = [d] := by decide
      exact this c h
  rw [Quote, flatMap_quoteChar _ h]

/-! ## Lemmas on escaping and decoding -/

theorem Char_toNat_lt (c : Char) : c.toNat < 0x110000 := by
  have h := c.valid
  simp only [UInt32.isValidChar, Nat.isValidChar] at h
  show c.val.toNat < 0x110000
  omega

theorem utf8EncodeRune_lt (c : Char) : ∀ b ∈ utf8EncodeRune c, b < 256 := by
  have h := Char_toNat_lt c
  intro b hb
  unfold utf8EncodeRune at hb
  simp only at hb
  split at hb
  · simp only [List.mem_singleton] at hb; omega
  · split at hb
    · simp only [List.mem_cons, List.mem_singleton, List.not_mem_nil, or_false] at hb
      omega
    · split at hb
      · simp only [List.mem_cons, List.mem_singleton, List.not_mem_nil, or_false] at hb
        omega
      · simp only [List.mem_cons, List.mem_singleton, List.not_mem_nil, or_false] at hb
        omega

theorem utf8Bytes_lt (s : List Char) : ∀ b ∈ utf8Bytes s, b < 256 := by
  intro b hb
  simp only [utf8Bytes, List.mem_flatMap] at hb
  obtain ⟨c, _, hc⟩ := hb
  exact utf8EncodeRune_lt c b hc

theorem upperhex_digit : ∀ n < 16, ishex (upperhex n) = true ∧ unhex (upperhex n) = n := by
  decide

theorem upperhex_plain (n : Nat) : isDelimiter (upperhex n) = false := by
  by_cases h : n < 16
  · revert n; decide
  · have : upperhex n = '0' := by
      unfold upperhex
      rw [List.getD_eq_default]
      simp only [List.length_cons, List.length_nil]
      omega
    rw [this]; decide

theorem shouldEscape_false_lt (b : Nat) (h : shouldEscape b = false) : b < 127 := by
  unfold shouldEscape at h
  by_contra hc
  have h1 : ¬ (b ≤ 0x7A) := by omega
  have h2 : ¬ (b ≤ 0x5A) := by omega
  have h3 : ¬ (b ≤ 0x39) := by omega
  have h4 : b ≠ 0x2D ∧ b ≠ 0x5F ∧ b ≠ 0x2E ∧ b ≠ 0x7E := by omega
  simp [h1, h2, h3, h4] at h

theorem unreserved_char : ∀ b < 127, shouldEscape b = false →
    isDelimiter (Char.ofNat b) = false ∧ Char.ofNat b ≠ '%' ∧ Char.ofNat b ≠ '+'
      ∧ utf8EncodeRune (Char.ofNat b) = [b] := by
  decide

theorem QueryUnescape_plus (rest : List Char) :
    QueryUnescape ('+' :: rest)
      = match QueryUnescape rest with
        | .ok t => .ok (0x20 :: t)
        | .error err => .error err := by
  rcases rest with _ | ⟨a, _ | ⟨b, t⟩⟩ <;> simp [QueryUnescape]

theorem QueryUnescape_other (c : Char) (rest : List Char) (h1 : c ≠ '%') (h2 : c ≠ '+') :
    QueryUnescape (c :: rest)
      = match QueryUnescape rest with
        | .ok t => .ok (utf8EncodeRune c ++ t)
        | .error err => .error err := by
  rcases rest with _ | ⟨a, _ | ⟨b, t⟩⟩ <;> simp [QueryUnescape, h1, h2]

theorem QueryUnescape_escapeByte (b : Nat) (hb : b < 256) (rest : List Char) :
    QueryUnescape (escapeByte b ++ rest)
      = match QueryUnescape rest with
        | .ok t => .ok (b :: t)
        | .error err => .error err := by
  unfold escapeByte
  by_cases h1 : b = 0x20
  · simp [h1, QueryUnescape_plus]
  · by_cases h2 : shouldEscape b = true
    · have hhi := upperhex_digit (b / 16) (by omega)
      have hlo := upperhex_digit (b % 16) (by omega)
      have hsum : b / 16 * 16 + b % 16 = b := by omega
      simp [h1, h2, QueryUnescape, hhi.1, hlo.1, hhi.2, hlo.2, hsum]
    · have h3 : shouldEscape b = false := by simpa using h2
      obtain ⟨_, hp, hq, hu⟩ := unreserved_char b (shouldEscape_false_lt b h3) h3
      simp [h1, h3, QueryUnescape_other _ _ hp hq, hu]

theorem QueryUnescape_flatMap (bs : List Nat) (h : ∀ b ∈ bs, b < 256) :
    QueryUnescape (bs.flatMap escapeByte) = .ok bs := by
  induction bs with
  | nil => simp [QueryUnescape]
  | cons b rest ih =>
    rw [List.flatMap_cons, QueryUnescape_escapeByte b (h b (List.mem_cons_self _ _)),
      ih (fun x hx => h x (List.mem_cons_of_mem _ hx))]

theorem QueryUnescape_QueryEscape (s : List Char) :
    QueryUnescape (QueryEscape s) = .ok (utf8Bytes s) :=
  QueryUnescape_flatMap _ (utf8Bytes_lt s)

theorem escapeByte_plain (b : Nat) : ∀ c ∈ escapeByte b, isDelimiter c = false := by
  intro c hc
  unfold escapeByte at hc
  by_cases h1 : b = 0x20
  · simp only [h1, if_true, List.mem_singleton] at hc
    rw [hc]; decide
  · by_cases h2 : shouldEscape b = true
    · simp only [h1, h2, if_true, if_false, List.mem_cons, List.mem_singleton,
        List.not_mem_nil, or_false] at hc
      rcases hc with h | h | h
      · rw [h]; decide
      · rw [h]; exact upperhex_plain _
      · rw [h]; exact upperhex_plain _
    · have h3 : shouldEscape b = false := by simpa using h2
      simp only [h1, h3, if_false, Bool.false_eq_true, List.mem_singleton] at hc
      rw [hc]
      exact (unreserved_char b (shouldEscape_false_lt b h3) h3).1

theorem QueryEscape_plain (s : List Char) : ∀ c ∈ QueryEscape s, isDelimiter c = false := by
  intro c hc
  simp only [QueryEscape, List.mem_flatMap] at hc
  obtain ⟨b, _, hb⟩ := hc
  exact escapeByte_plain b c hb

theorem not_mem_of_plain (s : List Char) (h : ∀ c ∈ s, isDelimiter c = false) (d : Char)
    (hd : isDelimiter d = true) : d ∉ s := by
  intro hm
  have := h d hm
  rw [hd] at this
  exact absurd this (by decide)

theorem Encode_buildQuery (kw lr cr num : List Char) :
    Values.Encode (buildQuery kw lr cr num)
      = "cr=".toList ++ QueryEscape cr ++ '&' :: ("lr=".toList ++ QueryEscape lr)
          ++ '&' :: ("num=".toList ++ QueryEscape num)
          ++ '&' :: ("q=".toList ++ QueryEscape kw) := by
  have hcr : QueryEscape "cr".toList = "cr".toList := by decide
  have hlr : QueryEscape "lr".toList = "lr".toList := by decide
  have hnum : QueryEscape "num".toList = "num".toList := by decide
  have hq : QueryEscape "q".toList = "q".toList := by decide
  have hs : sortByKey (buildQuery kw lr cr num)
      = [("cr".toList, [cr]), ("lr".toList, [lr]), ("num".toList, [num]), ("q".toList, [kw])] := by
    simp [buildQuery, Values.Set, sortByKey, insertByKey, strLt]
  rw [Values.Encode, hs]
  simp only [List.foldl_cons, List.foldl_nil, hcr, hlr, hnum, hq]
  simp

theorem parseQueryLoop_nil (fuel : Nat) (acc : ByteValues × Option QueryError) :
    parseQueryLoop fuel [] acc = acc := by
  cases fuel <;> simp [parseQueryLoop]

theorem parseQueryLoop_pair (fuel : Nat) (k a rest : List Char) (kb vb : List Nat)
    (m : ByteValues) (err : Option QueryError)
    (hk : ∀ c ∈ k, isDelimiter c = false) (ha : ∀ c ∈ a, isDelimiter c = false)
    (hne : k ≠ []) (hku : QueryUnescape k = .ok kb) (hau : QueryUnescape a = .ok vb)
    (query : List Char) (hq : query = k ++ '=' :: a ++ '&' :: rest ∨ (query = k ++ '=' :: a ∧ rest = [])) :
    parseQueryLoop (fuel + 1) query (m, err) = parseQueryLoop fuel rest (m.add kb vb, err) := by
  have hamp : '&' ∉ k ++ '=' :: a := by
    intro hm
    rcases List.mem_append.mp hm with h | h
    · exact not_mem_of_plain k hk '&' (by decide) h
    · rcases List.mem_cons.mp h with h2 | h2
      · exact absurd h2 (by decide)
      · exact not_mem_of_plain a ha '&' (by decide) h2
  have hsemi : ';' ∉ k ++ '=' :: a := by
    intro hm
    rcases List.mem_append.mp hm with h | h
    · exact not_mem_of_plain k hk ';' (by decide) h
    · rcases List.mem_cons.mp h with h2 | h2
      · exact absurd h2 (by decide)
      · exact not_mem_of_plain a ha ';' (by decide) h2
  have heq : '=' ∉ k := not_mem_of_plain k hk '=' (by decide)
  have hcut : (Cut '&' query).1 = k ++ '=' :: a ∧ (Cut '&' query).2.1 = rest := by
    rcases hq with h | ⟨h, hr⟩
    · rw [h, Cut_found '&' (k ++ '=' :: a) rest hamp]; exact ⟨rfl, rfl⟩
    · rw [h, hr, Cut_absent '&' (k ++ '=' :: a) hamp]; exact ⟨rfl, rfl⟩
  have hqne : query ≠ [] := by
    rcases hq with h | ⟨h, _⟩ <;> rw [h] <;> cases k <;> simp at hne ⊢
  have hkne : k ++ '=' :: a ≠ [] := by cases k <;> simp
  have hcut2 : Cut '=' (k ++ '=' :: a) = (k, a, true) := Cut_found '=' k a heq
  rw [parseQueryLoop]
  simp only [hqne, if_false, hcut.1, hcut.2, hsemi, hkne, hcut2, hku, hau]

theorem ParseQuery_Encode_buildQuery (kw lr cr num : List Char) :
    ParseQuery (Values.Encode (buildQuery kw lr cr num))
      = ([(utf8Bytes "cr".toList, [utf8Bytes cr]), (utf8Bytes "lr".toList, [utf8Bytes lr]),
          (utf8Bytes "num".toList, [utf8Bytes num]), (utf8Bytes "q".toList, [utf8Bytes kw])],
         none) := by
  have hkey : ∀ k : List Char, k ∈ ["cr".toList, "lr".toList, "num".toList, "q".toList] →
      (∀ c ∈ k, isDelimiter c = false) ∧ k ≠ [] := by
    decide
  obtain ⟨c1, c2⟩ := hkey "cr".toList (by decide)
  obtain ⟨l1, l2⟩ := hkey "lr".toList (by decide)
  obtain ⟨n1, n2⟩ := hkey "num".toList (by decide)
  obtain ⟨q1, q2⟩ := hkey "q".toList (by decide)
  have c3 : QueryUnescape "cr".toList = .ok (utf8Bytes "cr".toList) := rfl
  have l3 : QueryUnescape "lr".toList = .ok (utf8Bytes "lr".toList) := rfl
  have n3 : QueryUnescape "num".toList = .ok (utf8Bytes "num".toList) := rfl
  have q3 : QueryUnescape "q".toList = .ok (utf8Bytes "q".toList) := rfl
  rw [ParseQuery, Encode_buildQuery]
  obtain ⟨fuel, hfuel⟩ : ∃ fuel, ("cr=".toList ++ QueryEscape cr
      ++ '&' :: ("lr=".toList ++ QueryEscape lr) ++ '&' :: ("num=".toList ++ QueryEscape num)
      ++ '&' :: ("q=".toList ++ QueryEscape kw)).length + 1 = fuel + 4 := by
    refine ⟨(QueryEscape cr).length + (QueryEscape lr).length + (QueryEscape num).length
      + (QueryEscape kw).length + 12, ?_⟩
    simp
    omega
  rw [hfuel]
  rw [parseQueryLoop_pair (fuel + 3) "cr".toList (QueryEscape cr)
      ("lr=".toList ++ QueryEscape lr ++ '&' :: ("num=".toList ++ QueryEscape num)
        ++ '&' :: ("q=".toList ++ QueryEscape kw))
      _ _ _ _ c1 (QueryEscape_plain cr) c2 c3 (QueryUnescape_QueryEscape cr) _
      (Or.inl (by simp)),
    parseQueryLoop_pair (fuel + 2) "lr".toList (QueryEscape lr)
      ("num=".toList ++ QueryEscape num ++ '&' :: ("q=".toList ++ QueryEscape kw))
      _ _ _ _ l1 (QueryEscape_plain lr) l2 l3 (QueryUnescape_QueryEscape lr) _
      (Or.inl (by simp)),
    parseQueryLoop_pair (fuel + 1) "num".toList (QueryEscape num)
      ("q=".toList ++ QueryEscape kw)
      _ _ _ _ n1 (QueryEscape_plain num) n2 n3 (QueryUnescape_QueryEscape num) _
      (Or.inl (by simp)),
    parseQueryLoop_pair fuel "q".toList (QueryEscape kw) []
      _ _ _ _ q1 (QueryEscape_plain kw) q2 q3 (QueryUnescape_QueryEscape kw) _
      (Or.inr ⟨by simp, rfl⟩),
    parseQueryLoop_nil]
  have hadd : ByteValues.add (ByteValues.add (ByteValues.add (ByteValues.add []
      (utf8Bytes "cr".toList) (utf8Bytes cr)) (utf8Bytes "lr".toList) (utf8Bytes lr))
      (utf8Bytes "num".toList) (utf8Bytes num)) (utf8Bytes "q".toList) (utf8Bytes kw)
      = [(utf8Bytes "cr".toList, [utf8Bytes cr]), (utf8Bytes "lr".toList, [utf8Bytes lr]),
          (utf8Bytes "num".toList, [utf8Bytes num]), (utf8Bytes "q".toList, [utf8Bytes kw])] := by
    have e1 : utf8Bytes "cr".toList = [99, 114] := by decide
    have e2 : utf8Bytes "lr".toList = [108, 114] := by decide
    have e3 : utf8Bytes "num".toList = [110, 117, 109] := by decide
    have e4 : utf8Bytes "q".toList = [113] := by decide
    rw [e1, e2, e3, e4]
    simp [ByteValues.add]
  rw [hadd]

theorem not_mem_URL (apiKey kw lr cr num : List Char) (d : Char)
    (hd : isDelimiter d = true) (h1 : d ≠ '&') (h2 : d ≠ '=') :
    d ∉ (buildRequest apiKey kw lr cr num).URL := by
  have hend : ∀ c ∈ endpoint, isDelimiter c = false := by decide
  have hlit : ∀ c ∈ "cr=lr=num=q=".toList, c = '=' ∨ isDelimiter c = false := by decide
  have hno : ∀ s : List Char, (∀ c ∈ s, isDelimiter c = false) → d ∉ s :=
    fun s hs => not_mem_of_plain s hs d hd
  have hl : ∀ s : List Char, (∀ c ∈ s, c ∈ "cr=lr=num=q=".toList) → d ∉ s := by
    intro s hs hds
    rcases hlit d (hs d hds) with h | h
    · exact h2 h
    · rw [hd] at h; exact absurd h (by decide)
  have hcr : d ∉ "cr=".toList := hl _ (by decide)
  have hlr : d ∉ "lr=".toList := hl _ (by decide)
  have hnum : d ∉ "num=".toList := hl _ (by decide)
  have hq : d ∉ "q=".toList := hl _ (by decide)
  show d ∉ endpoint ++ Values.Encode (buildQuery kw lr cr num)
  rw [Encode_buildQuery]
  intro hm
  rcases List.mem_append.mp hm with h | h
  · exact hno _ hend h
  · rcases List.mem_append.mp h with h | h
    · rcases List.mem_append.mp h with h | h
      · rcases List.mem_append.mp h with h | h
        · rcases List.mem_append.mp h with h | h
          · exact hcr h
          · exact hno _ (QueryEscape_plain cr) h
        · rcases List.mem_cons.mp h with h | h
          · exact h1 h
          · rcases List.mem_append.mp h with h | h
            · exact hlr h
            · exact hno _ (QueryEscape_plain lr) h
      · rcases List.mem_cons.mp h with h | h
        · exact h1 h
        · rcases List.mem_append.mp h with h | h
          · exact hnum h
          · exact hno _ (QueryEscape_plain num) h
    · rcases List.mem_cons.mp h with h | h
      · exact h1 h
      · rcases List.mem_append.mp h with h | h
        · exact hq h
        · exact hno _ (QueryEscape_plain kw) h

theorem rawQuery_buildRequest (apiKey kw lr cr num : List Char) :
    rawQuery (buildRequest apiKey kw lr cr num).URL = [] := by
  have h1 := not_mem_URL apiKey kw lr cr num '#' (by decide) (by decide) (by decide)
  have h2 := not_mem_URL apiKey kw lr cr num '?' (by decide) (by decide) (by decide)
  rw [rawQuery, Cut_absent '#' _ h1, Cut_absent '?' _ h2]

theorem buildRequest_shape (apiKey k lr cr num : List Char) :
    (buildRequest apiKey k lr cr num).Method = "GET".toList
    ∧ (buildRequest apiKey k lr cr num).URL
        = endpoint ++ ("cr=".toList ++ QueryEscape cr
          ++ '&' :: ("lr=".toList ++ QueryEscape lr)
          ++ '&' :: ("num=".toList ++ QueryEscape num)
          ++ '&' :: ("q=".toList ++ QueryEscape k))
    ∧ rawQuery (buildRequest apiKey k lr cr num).URL = []
    ∧ (buildRequest apiKey k lr cr num).Query = []
    ∧ ParseQuery ((buildRequest apiKey k lr cr num).URL.drop endpoint.length)
        = ([(utf8Bytes "cr".toList, [utf8Bytes cr]), (utf8Bytes "lr".toList, [utf8Bytes lr]),
            (utf8Bytes "num".toList, [utf8Bytes num]),
            (utf8Bytes "q".toList, [utf8Bytes k])], none)
    ∧ (ParseQuery ((buildRequest apiKey k lr cr num).URL.drop endpoint.length)).1.Get
        (utf8Bytes "q".toList) = utf8Bytes k
    ∧ (ParseQuery ((buildRequest apiKey k lr cr num).URL.drop endpoint.length)).1.Get
        (utf8Bytes "lr".toList) = utf8Bytes lr
    ∧ (ParseQuery ((buildRequest apiKey k lr cr num).URL.drop endpoint.length)).1.Get
        (utf8Bytes "cr".toList) = utf8Bytes cr
    ∧ (ParseQuery ((buildRequest apiKey k lr cr num).URL.drop endpoint.length)).1.Get
        (utf8Bytes "num".toList) = utf8Bytes num := by
  have hdrop : (buildRequest apiKey k lr cr num).URL.drop endpoint.length
      = Values.Encode (buildQuery k lr cr num) := by
    simp [buildRequest]
  have hparse := ParseQuery_Encode_buildQuery k lr cr num
  have hraw := rawQuery_buildRequest apiKey k lr cr num
  have e1 : utf8Bytes "cr".toList = [99, 114] := by decide
  have e2 : utf8Bytes "lr".toList = [108, 114] := by decide
  have e3 : utf8Bytes "num".toList = [110, 117, 109] := by decide
  have e4 : utf8Bytes "q".toList = [113] := by decide
  refine ⟨rfl, ?_, hraw, ?_, ?_, ?_, ?_, ?_, ?_⟩
  · simp only [buildRequest, Encode_buildQuery]
  · rw [OutRequest.Query, hraw]; rfl
  · rw [hdrop, hparse]
  all_goals
    rw [hdrop, hparse, e1, e2, e3, e4]
    simp [ByteValues.Get]

theorem loopDelta_calls_initial (w : World) (lr cr num : List Char) (ks : List (List Char)) :
    ∀ i : Nat, ∃ sent : List (List Char),
      sent <+: ((ks.map TrimSpace).filter fun k => decide (k ≠ []))
      ∧ (loopDelta w lr cr num i ks).1.calls
          = sent.map fun k => buildRequest w.apiKey k lr cr num := by
  induction ks with
  | nil => intro i; exact ⟨[], by simp, by simp [loopDelta, Delta.zero]⟩
  | cons kw rest ih =>
    intro i
    obtain ⟨sent, hp, hs⟩ := ih (i + 1)
    simp only [loopDelta]
    cases ho : outcomeAt w lr cr num i kw with
    | none =>
      have hb : TrimSpace kw = [] := by
        by_contra hne
        simp [outcomeAt, hne] at ho
      refine ⟨sent, ?_, hs⟩
      simpa [hb] using hp
    | some o =>
      have hb : TrimSpace kw ≠ [] := (outcomeAt_some_trim _ _ _ _ _ _ _ ho).1
      have hd : (outcomeDelta (buildRequest w.apiKey (TrimSpace kw) lr cr num) o).calls
          = [buildRequest w.apiKey (TrimSpace kw) lr cr num] := by
        cases o <;> rfl
      by_cases hr : o = Outcome.RateLimited
      · refine ⟨[TrimSpace kw], ?_, ?_⟩
        · simp [hb]
        · simp [hr, outcomeDelta]
      · refine ⟨TrimSpace kw :: sent, ?_, ?_⟩
        · simp only [List.map_cons, List.filter_cons, hb, ne_eq, not_false_eq_true,
            decide_True, if_true]
          exact (List.prefix_cons_inj _).mpr hp
        · simp [hr, Delta.append, hd, hs]

/-! ## C1: the file holds the links in input order -/

/-- C1: after a POST whose output file could be created, the file holds the
links of the successful keywords met before any rate-limit abort, keyword by
keyword in input order and link by link in response order, each followed by
a newline, and nothing else. -/
theorem sink_holds_links_in_input_order (w : World) (r : Request)
    (hm : r.Method = "POST".toList) (hc : w.createOk = true) :
    (searchHandler w r).1.outFile
      = some ⟨outFileName w.now, asLines (expectedLinks w r)⟩ := by
  rw [searchHandler_post w r hm hc]
  simp [batch_eq, Effects.add, Effects.none, loopDelta_written, expectedLinks]

theorem sink_holds_links_in_input_order_witness :
    (sampleRequest "POST".toList "cats\r\n\r\n  dogs  \r\nbirds".toList).Method = "POST".toList
    ∧ (sampleWorld [.ok ⟨200, "ok".toList⟩, .ok ⟨500, []⟩, .ok ⟨200, "??".toList⟩,
        .ok ⟨200, "ok".toList⟩]).createOk = true
    ∧ (searchHandler
        (sampleWorld [.ok ⟨200, "ok".toList⟩, .ok ⟨500, []⟩, .ok ⟨200, "??".toList⟩,
          .ok ⟨200, "ok".toList⟩])
        (sampleRequest "POST".toList "cats\r\n\r\n  dogs  \r\nbirds".toList)).1.outFile
      = some ⟨"1700000000000000000.txt".toList,
          "http://x\nhttp://y\nhttp://x\nhttp://y\n".toList⟩ :=
  ⟨rfl, rfl,
    (sink_holds_links_in_input_order
      (sampleWorld [.ok ⟨200, "ok".toList⟩, .ok ⟨500, []⟩, .ok ⟨200, "??".toList⟩,
        .ok ⟨200, "ok".toList⟩])
      (sampleRequest "POST".toList "cats\r\n\r\n  dogs  \r\nbirds".toList) rfl rfl).trans
      (by decide)⟩

/-! ## C2: a rate limit stops the batch -/

/-- C2: when the entry `kw` is the first whose call is answered 429, the
requests made are exactly those of the non-blank entries up to and including
`kw` (nothing after it is dispatched), and the file is the one of the batch
of the preceding entries alone: the links of their outcomes, nothing from
`kw`. -/
theorem rate_limit_stops_the_batch (w : World) (r : Request) (pre post : List (List Char))
    (kw : List Char) (hm : r.Method = "POST".toList) (hc : w.createOk = true)
    (hsplit : Split r.keywords crlf = pre ++ kw :: post)
    (hpre : some Outcome.RateLimited ∉ outcomes w r.lr r.cr r.num 0 pre)
    (hkw : outcomeAt w r.lr r.cr r.num pre.length kw = some Outcome.RateLimited) :
    (searchHandler w r).1.calls
        = (((pre ++ [kw]).map TrimSpace).filter fun k => decide (k ≠ [])).map
            (fun k => buildRequest w.apiKey k r.lr r.cr r.num)
    ∧ (searchHandler w r).1.calls
        = (batch w r pre).calls ++ [buildRequest w.apiKey (TrimSpace kw) r.lr r.cr r.num]
    ∧ (searchHandler w r).1.outFile = (batch w r pre).outFile
    ∧ (searchHandler w r).1.outFile
        = some ⟨outFileName w.now,
            asLines ((outcomes w r.lr r.cr r.num 0 pre).flatMap linksOf)⟩ := by
  have hnb := (outcomeAt_some_trim _ _ _ _ _ _ _ hkw).1
  have hpb := loopDelta_noBreak w _ _ _ pre 0 hpre
  have hstep : loopDelta w r.lr r.cr r.num pre.length (kw :: post)
      = (outcomeDelta (buildRequest w.apiKey (TrimSpace kw) r.lr r.cr r.num)
          Outcome.RateLimited, true) := by
    simp [loopDelta, hkw]
  have hw := loopDelta_written w r.lr r.cr r.num pre 0
  rw [beforeAbort_of_not_mem _ hpre] at hw
  have hcalls := loopDelta_calls_noBreak w _ _ _ pre 0 hpre
  rw [searchHandler_post w r hm hc, hsplit]
  simp only [batch_eq, loopDelta_append, hpb, Nat.zero_add, hstep]
  simp [Effects.add, Effects.none, Delta.append, outcomeDelta, hw, hcalls, hnb]

theorem rate_limit_stops_the_batch_witness :
    (sampleRequest "POST".toList "a\r\nb\r\nc".toList).Method = "POST".toList
    ∧ Split (sampleRequest "POST".toList "a\r\nb\r\nc".toList).keywords crlf
        = ["a".toList] ++ "b".toList :: ["c".toList]
    ∧ some Outcome.RateLimited ∉ outcomes (sampleWorld [.ok ⟨200, "ok".toList⟩, .ok ⟨429, []⟩])
        "lang_en".toList [] "10".toList 0 ["a".toList]
    ∧ outcomeAt (sampleWorld [.ok ⟨200, "ok".toList⟩, .ok ⟨429, []⟩])
        "lang_en".toList [] "10".toList 1 "b".toList = some Outcome.RateLimited
    ∧ (searchHandler (sampleWorld [.ok ⟨200, "ok".toList⟩, .ok ⟨429, []⟩])
        (sampleRequest "POST".toList "a\r\nb\r\nc".toList)).1.calls
      = [buildRequest "key".toList "a".toList "lang_en".toList [] "10".toList,
         buildRequest "key".toList "b".toList "lang_en".toList [] "10".toList]
    ∧ (searchHandler (sampleWorld [.ok ⟨200, "ok".toList⟩, .ok ⟨429, []⟩])
        (sampleRequest "POST".toList "a\r\nb\r\nc".toList)).1.outFile
      = some ⟨"1700000000000000000.txt".toList, "http://x\nhttp://y\n".toList⟩ :=
  ⟨rfl, by decide, by decide, by decide,
    (rate_limit_stops_the_batch (sampleWorld [.ok ⟨200, "ok".toList⟩, .ok ⟨429, []⟩])
      (sampleRequest "POST".toList "a\r\nb\r\nc".toList) ["a".toList] ["c".toList] "b".toList
      rfl rfl (by decide) (by decide) (by decide)).1.trans (by decide),
    (rate_limit_stops_the_batch (sampleWorld [.ok ⟨200, "ok".toList⟩, .ok ⟨429, []⟩])
      (sampleRequest "POST".toList "a\r\nb\r\nc".toList) ["a".toList] ["c".toList] "b".toList
      rfl rfl (by decide) (by decide) (by decide)).2.2.2.trans (by decide)⟩

/-! ## C3: a failing keyword is skipped -/

/-- C3: when the entry `kw` is reached and its outcome is a network, status
or decode failure, the file is left as the preceding entries left it, one log
line naming the trimmed keyword is added, and the batch goes on: its file, and
its log and calls apart from those of `kw`, are those of the batch without
`kw`. -/
theorem failing_keyword_is_skipped (w : World) (r : Request) (pre post : List (List Char))
    (kw : List Char) (o : Outcome) (hm : r.Method = "POST".toList) (hc : w.createOk = true)
    (hsplit : Split r.keywords crlf = pre ++ kw :: post)
    (hpre : some Outcome.RateLimited ∉ outcomes w r.lr r.cr r.num 0 pre)
    (hkw : outcomeAt w r.lr r.cr r.num pre.length kw = some o)
    (hfail : o.isFailure = true) :
    (batch w r (pre ++ [kw])).outFile = (batch w r pre).outFile
    ∧ (searchHandler w r).1.outFile = (batch (w.skip pre.length) r (pre ++ post)).outFile
    ∧ (searchHandler w r).2 = Reply.response 200
        ("Done. See ".toList ++ Quote (outFileName w.now) ++ ".".toList)
    ∧ ∃ err laterLog laterCalls,
        err.keyword = some (TrimSpace kw) ∧ err.isRateLimit = false
        ∧ (batch w r (pre ++ [kw])).log = (batch w r pre).log ++ [err]
        ∧ (searchHandler w r).1.log = (batch w r pre).log ++ err :: laterLog
        ∧ (batch (w.skip pre.length) r (pre ++ post)).log = (batch w r pre).log ++ laterLog
        ∧ (searchHandler w r).1.calls
            = (batch w r pre).calls
                ++ buildRequest w.apiKey (TrimSpace kw) r.lr r.cr r.num :: laterCalls
        ∧ (batch (w.skip pre.length) r (pre ++ post)).calls
            = (batch w r pre).calls ++ laterCalls := by
  obtain ⟨hnb, ho⟩ := outcomeAt_some_trim _ _ _ _ _ _ _ hkw
  have hpb := loopDelta_noBreak w _ _ _ pre 0 hpre
  have hnr : o ≠ Outcome.RateLimited := by
    intro h; rw [h] at hfail; simp [Outcome.isFailure] at hfail
  obtain ⟨err, dump, hk, hrl, hd⟩ := classify_failure_delta w.Decode (TrimSpace kw)
    (w.Do pre.length (buildRequest w.apiKey (TrimSpace kw) r.lr r.cr r.num))
    (buildRequest w.apiKey (TrimSpace kw) r.lr r.cr r.num) (ho ▸ hfail)
  rw [← ho] at hd
  have hstep : ∀ rest : List (List Char), loopDelta w r.lr r.cr r.num pre.length (kw :: rest)
      = ((outcomeDelta (buildRequest w.apiKey (TrimSpace kw) r.lr r.cr r.num) o).append
          (loopDelta w r.lr r.cr r.num (pre.length + 1) rest).1,
         (loopDelta w r.lr r.cr r.num (pre.length + 1) rest).2) := by
    intro rest
    simp [loopDelta, hkw, hnr]
  have hsb := loopDelta_skip_before w r.lr r.cr r.num pre.length pre 0 (by omega)
  have hsa := loopDelta_skip_after w r.lr r.cr r.num pre.length post pre.length (le_refl _)
  have hapi : (w.skip pre.length).apiKey = w.apiKey := rfl
  have hnow : (w.skip pre.length).now = w.now := rfl
  rw [searchHandler_post w r hm hc, hsplit]
  refine ⟨?_, ?_, rfl, err, (loopDelta w r.lr r.cr r.num (pre.length + 1) post).1.log,
    (loopDelta w r.lr r.cr r.num (pre.length + 1) post).1.calls, hk, hrl, ?_, ?_, ?_, ?_, ?_⟩ <;>
  simp only [batch_eq, loopDelta_append, hpb, hsb, hsa, hnow, Nat.zero_add, hstep, hd] <;>
  simp [Effects.add, Effects.none, Delta.append, loopDelta, Delta.zero]

theorem failing_keyword_is_skipped_witness :
    (sampleRequest "POST".toList "a\r\nb\r\nc".toList).Method = "POST".toList
    ∧ Split (sampleRequest "POST".toList "a\r\nb\r\nc".toList).keywords crlf
        = ["a".toList] ++ "b".toList :: ["c".toList]
    ∧ outcomeAt (sampleWorld [.ok ⟨200, "ok".toList⟩, .error "timeout".toList])
        "lang_en".toList [] "10".toList 1 "b".toList
        = some (Outcome.NetworkFailure "b".toList "timeout".toList)
    ∧ (searchHandler (sampleWorld [.ok ⟨200, "ok".toList⟩, .error "timeout".toList])
        (sampleRequest "POST".toList "a\r\nb\r\nc".toList)).1.outFile
      = (batch ((sampleWorld [.ok ⟨200, "ok".toList⟩, .error "timeout".toList]).skip 1)
          (sampleRequest "POST".toList "a\r\nb\r\nc".toList)
          (["a".toList] ++ ["c".toList])).outFile :=
  ⟨rfl, by decide, by decide,
    (failing_keyword_is_skipped (sampleWorld [.ok ⟨200, "ok".toList⟩, .error "timeout".toList])
      (sampleRequest "POST".toList "a\r\nb\r\nc".toList) ["a".toList] ["c".toList] "b".toList
      (Outcome.NetworkFailure "b".toList "timeout".toList)
      rfl rfl (by decide) (by decide) (by decide) rfl).2.1⟩

/-! ## C4: the classification of a call -/

/-- C4: for a non-blank entry, what the closure does and returns is decided
by the specification's classification of the call's result, taken in its
priority order: a transport error gives the request-failed error whatever
else holds; otherwise status 429 gives the rate-limit sentinel whatever the
body; otherwise a status other than 200 gives the status error; otherwise a
body that does not decode gives the decode error; otherwise `nil` is returned
and the links of the results are written in response order. -/
theorem closure_follows_classification (w : World) (lr cr num : List Char) (i : Nat)
    (kw : List Char) (e : Effects) (h : TrimSpace kw ≠ []) :
    processKeyword w lr cr num i kw e
      = deliver { e with calls := e.calls ++ [buildRequest w.apiKey (TrimSpace kw) lr cr num] }
          (classify w.Decode (TrimSpace kw)
            (w.Do i (buildRequest w.apiKey (TrimSpace kw) lr cr num)))
    ∧ (∀ cause, w.Do i (buildRequest w.apiKey (TrimSpace kw) lr cr num) = .error cause →
        (processKeyword w lr cr num i kw e).2 = some (.requestFailed (TrimSpace kw) cause)
        ∧ (processKeyword w lr cr num i kw e).1.outFile = e.outFile)
    ∧ (∀ resp, w.Do i (buildRequest w.apiKey (TrimSpace kw) lr cr num) = .ok resp →
        resp.StatusCode = 429 →
        (processKeyword w lr cr num i kw e).2 = some .ErrRateLimitExceeded
        ∧ (processKeyword w lr cr num i kw e).1.outFile = e.outFile)
    ∧ (∀ resp, w.Do i (buildRequest w.apiKey (TrimSpace kw) lr cr num) = .ok resp →
        resp.StatusCode ≠ 429 → resp.StatusCode ≠ 200 →
        (processKeyword w lr cr num i kw e).2
          = some (.statusNotOkay resp.StatusCode (TrimSpace kw))
        ∧ (processKeyword w lr cr num i kw e).1.outFile = e.outFile
        ∧ (processKeyword w lr cr num i kw e).1.stderr = e.stderr ++ [resp])
    ∧ (∀ resp cause, w.Do i (buildRequest w.apiKey (TrimSpace kw) lr cr num) = .ok resp →
        resp.StatusCode = 200 → w.Decode resp.Body = .error cause →
        (processKeyword w lr cr num i kw e).2 = some (.decodeFailed (TrimSpace kw) cause)
        ∧ (processKeyword w lr cr num i kw e).1.outFile = e.outFile)
    ∧ (∀ resp v, w.Do i (buildRequest w.apiKey (TrimSpace kw) lr cr num) = .ok resp →
        resp.StatusCode = 200 → w.Decode resp.Body = .ok v →
        (processKeyword w lr cr num i kw e).2 = none
        ∧ (processKeyword w lr cr num i kw e).1.outFile
            = e.outFile.map fun f =>
                { f with content := f.content ++ asLines (v.Results.map fun x => x.Link) }) := by
  have hd := processKeyword_deliver w lr cr num i kw e h
  refine ⟨hd, ?_, ?_, ?_, ?_, ?_⟩
  · intro cause hdo
    rw [hd, hdo]
    exact ⟨rfl, rfl⟩
  · intro resp hdo hs
    rw [hd, hdo]
    simp [classify, hs, deliver]
  · intro resp hdo h1 h2
    rw [hd, hdo]
    simp [classify, h1, h2, deliver]
  · intro resp cause hdo hs hv
    rw [hd, hdo]
    simp [classify, hs, hv, deliver]
  · intro resp v hdo hs hv
    rw [hd, hdo]
    simp [classify, hs, hv, deliver, foldl_Fprintln, Effects.add]

theorem closure_follows_classification_witness :
    TrimSpace "  dogs  ".toList ≠ []
    ∧ processKeyword (sampleWorld [.ok ⟨404, "gone".toList⟩]) "lang_en".toList [] "10".toList 0
        "  dogs  ".toList Effects.none
      = ({ Effects.none with
            calls := [buildRequest "key".toList "dogs".toList "lang_en".toList [] "10".toList]
            stderr := [⟨404, "gone".toList⟩] },
         some (Err.statusNotOkay 404 "dogs".toList)) :=
  ⟨by decide,
    (closure_follows_classification (sampleWorld [.ok ⟨404, "gone".toList⟩]) "lang_en".toList []
      "10".toList 0 "  dogs  ".toList Effects.none (by decide)).1.trans (by decide)⟩

/-! ## C5: the keywords dispatched -/

/-- C5 as stated fails: for the blob `"a\nb"` (a bare newline) and an API that
never rate-limits, the handler dispatches the single keyword `"a\nb"`, not the
two keywords `a` and `b` of the blob cut at every line break. -/
theorem bare_newline_does_not_split :
    (sampleRequest "POST".toList "a\nb".toList).Method = "POST".toList
    ∧ (sampleWorld []).createOk = true
    ∧ some Outcome.RateLimited ∉ outcomes (sampleWorld []) "lang_en".toList [] "10".toList 0
        (Split "a\nb".toList crlf)
    ∧ specKeywords "a\nb".toList = ["a".toList, "b".toList]
    ∧ (searchHandler (sampleWorld []) (sampleRequest "POST".toList "a\nb".toList)).1.calls
        = [buildRequest "key".toList "a\nb".toList "lang_en".toList [] "10".toList]
    ∧ (searchHandler (sampleWorld []) (sampleRequest "POST".toList "a\nb".toList)).1.calls
        ≠ (specKeywords "a\nb".toList).map
            fun k => buildRequest "key".toList k "lang_en".toList [] "10".toList := by
  decide

/-- C5 as amended: absent a rate-limit abort, the keywords dispatched are the
entries of the blob cut at `"\r\n"` only, trimmed, the empty ones dropped, in
input order; each of them is non-empty and has no white space at either
end. -/
theorem dispatched_keywords_are_crlf_entries (w : World) (r : Request)
    (hm : r.Method = "POST".toList) (hc : w.createOk = true)
    (hno : some Outcome.RateLimited ∉ outcomes w r.lr r.cr r.num 0 (Split r.keywords crlf)) :
    (searchHandler w r).1.calls
        = (crlfKeywords r.keywords).map (fun k => buildRequest w.apiKey k r.lr r.cr r.num)
    ∧ ∀ k ∈ crlfKeywords r.keywords, k ≠ [] ∧ Trimmed k ∧ TrimSpace k = k := by
  constructor
  · rw [searchHandler_post w r hm hc, batch_eq]
    simp [Effects.add, Effects.none, loopDelta_calls_noBreak w _ _ _ _ 0 hno, crlfKeywords]
  · intro k hk
    simp only [crlfKeywords, List.mem_filter, List.mem_map, decide_eq_true_eq] at hk
    obtain ⟨⟨e, _, he⟩, hne⟩ := hk
    have ht : Trimmed k := he ▸ TrimSpace_trimmed e
    exact ⟨hne, ht, TrimSpace_of_trimmed k ht⟩

theorem dispatched_keywords_are_crlf_entries_witness :
    (sampleRequest "POST".toList "cats\r\n\r\n  dogs  \r\nbirds".toList).Method = "POST".toList
    ∧ some Outcome.RateLimited ∉ outcomes (sampleWorld []) "lang_en".toList [] "10".toList 0
        (Split "cats\r\n\r\n  dogs  \r\nbirds".toList crlf)
    ∧ (searchHandler (sampleWorld [])
        (sampleRequest "POST".toList "cats\r\n\r\n  dogs  \r\nbirds".toList)).1.calls
      = ["cats".toList, "dogs".toList, "birds".toList].map
          fun k => buildRequest "key".toList k "lang_en".toList [] "10".toList :=
  ⟨rfl, by decide,
    (dispatched_keywords_are_crlf_entries (sampleWorld [])
      (sampleRequest "POST".toList "cats\r\n\r\n  dogs  \r\nbirds".toList) rfl rfl
      (by decide)).1.trans (by decide)⟩

/-! ## C6: a blank batch -/

/-- C6: when the keyword blob holds white space only (blank entries and line
breaks, the empty blob included), a POST creates the output file, leaves it
empty, makes no outbound call, logs nothing and answers 200. -/
theorem blank_batch_leaves_empty_file (w : World) (r : Request)
    (hm : r.Method = "POST".toList) (hc : w.createOk = true)
    (hblank : ∀ c ∈ r.keywords, IsSpace c = true) :
    searchHandler w r
      = ({ outFile := some ⟨outFileName w.now, []⟩, calls := [], log := [], stderr := [] },
         Reply.response 200 ("Done. See ".toList ++ Quote (outFileName w.now) ++ ".".toList)) := by
  have hks : ∀ k ∈ Split r.keywords crlf, TrimSpace k = [] := by
    intro k hk
    apply TrimSpace_of_all_space
    intro c hcm
    exact hblank c (Split_crlf_chars _ k hk c hcm)
  rw [searchHandler_post w r hm hc, batch_eq, loopDelta_blank w _ _ _ _ hks 0]
  simp [Effects.add, Effects.none, Delta.zero]

theorem blank_batch_leaves_empty_file_witness :
    (sampleRequest "POST".toList " \r\n\t\n\r\n  ".toList).Method = "POST".toList
    ∧ (sampleWorld []).createOk = true
    ∧ (∀ c ∈ (sampleRequest "POST".toList " \r\n\t\n\r\n  ".toList).keywords, IsSpace c = true)
    ∧ searchHandler (sampleWorld []) (sampleRequest "POST".toList " \r\n\t\n\r\n  ".toList)
      = ({ outFile := some ⟨outFileName (sampleWorld []).now, []⟩, calls := [], log := [],
           stderr := [] },
         Reply.response 200
          ("Done. See ".toList ++ Quote (outFileName (sampleWorld []).now) ++ ".".toList)) :=
  ⟨rfl, rfl, by decide,
    blank_batch_leaves_empty_file (sampleWorld [])
      (sampleRequest "POST".toList " \r\n\t\n\r\n  ".toList) rfl rfl (by decide)⟩

/-! ## C7: methods other than POST -/

/-- C7: a request whose method is not POST is answered 405 and nothing is
done: no file, no call, no log line, no dump. -/
theorem non_post_is_rejected (w : World) (r : Request) (h : r.Method ≠ "POST".toList) :
    searchHandler w r = (Effects.none, Reply.response 405 "Method Not Allowed\n".toList)
    ∧ (searchHandler w r).1.outFile = none
    ∧ (searchHandler w r).1.calls = []
    ∧ (searchHandler w r).1.log = []
    ∧ (searchHandler w r).1.stderr = [] := by
  have h1 : searchHandler w r
      = (Effects.none, Reply.response 405 "Method Not Allowed\n".toList) := by
    unfold searchHandler
    rw [if_pos h]
  rw [h1]
  exact ⟨rfl, rfl, rfl, rfl, rfl⟩

theorem non_post_is_rejected_witness :
    (sampleRequest "GET".toList "a\r\nb".toList).Method ≠ "POST".toList
    ∧ searchHandler (sampleWorld []) (sampleRequest "GET".toList "a\r\nb".toList)
      = (Effects.none, Reply.response 405 "Method Not Allowed\n".toList) :=
  ⟨by decide, (non_post_is_rejected (sampleWorld []) (sampleRequest "GET".toList "a\r\nb".toList)
    (by decide)).1⟩

/-! ## C8: the confirmation -/

/-- C8: after a POST whose output file could be created, whatever the
keywords and the answers of the API, the file of the request is named by the
decimal nanosecond timestamp followed by `.txt`, and the reply is status 200
with the text `Done. See "<name>".`, which holds that name. -/
theorem post_reports_output_file (w : World) (r : Request)
    (hm : r.Method = "POST".toList) (hc : w.createOk = true) :
    (searchHandler w r).1.outFile.map File.Name = some (formatInt w.now ++ ".txt".toList)
    ∧ (searchHandler w r).2
        = Reply.response 200
            ("Done. See \"".toList ++ (formatInt w.now ++ ".txt".toList) ++ "\".".toList)
    ∧ ∀ status body, (searchHandler w r).2 = Reply.response status body →
        status = 200 ∧ (formatInt w.now ++ ".txt".toList) <:+: body := by
  have hq := Quote_outFileName w.now
  have h2 : (searchHandler w r).2
      = Reply.response 200
          ("Done. See \"".toList ++ (formatInt w.now ++ ".txt".toList) ++ "\".".toList) := by
    rw [searchHandler_post w r hm hc, hq]
    simp [outFileName]
  refine ⟨?_, h2, ?_⟩
  · rw [searchHandler_post w r hm hc, batch_eq, loopDelta_add_name]
    simp [Effects.none, outFileName]
  · intro status body hb
    rw [h2] at hb
    injection hb with hs hbody
    refine ⟨hs.symm, ?_⟩
    rw [← hbody]
    exact ⟨"Done. See \"".toList, "\".".toList, rfl⟩

theorem post_reports_output_file_witness :
    (sampleRequest "POST".toList "a\r\nb\r\nc".toList).Method = "POST".toList
    ∧ (sampleWorld [.ok ⟨200, "ok".toList⟩, .ok ⟨429, []⟩]).createOk = true
    ∧ (searchHandler (sampleWorld [.ok ⟨200, "ok".toList⟩, .ok ⟨429, []⟩])
        (sampleRequest "POST".toList "a\r\nb\r\nc".toList)).2
      = Reply.response 200 "Done. See \"1700000000000000000.txt\".".toList :=
  ⟨rfl, rfl,
    (post_reports_output_file (sampleWorld [.ok ⟨200, "ok".toList⟩, .ok ⟨429, []⟩])
      (sampleRequest "POST".toList "a\r\nb\r\nc".toList) rfl rfl).2.1.trans (by decide)⟩

/-! ## C9: the outbound request -/

/-- C9 as stated fails: for the keyword `cats` the built URL has no query
component, so decoding the query parameters of the request gives nothing, and
`q` reads as the empty string instead of `cats`. -/
theorem request_has_no_query_component :
    (buildRequest "key".toList "cats".toList "lang_en".toList [] "10".toList).URL
      = "https://rapidapi.p.rapidapi.com/api/v1/search/cr=&lr=lang_en&num=10&q=cats".toList
    ∧ rawQuery (buildRequest "key".toList "cats".toList "lang_en".toList [] "10".toList).URL = []
    ∧ (buildRequest "key".toList "cats".toList "lang_en".toList [] "10".toList).Query = []
    ∧ (buildRequest "key".toList "cats".toList "lang_en".toList [] "10".toList).Query.Get
        (utf8Bytes "q".toList) ≠ utf8Bytes "cats".toList := by
  decide

/-- C9 as amended: after a POST whose output file could be created, the
requests dispatched are those of an initial stretch of the trimmed non-empty
entries, each built from the keyword and from the form fields `lr`, `cr` and
`num` exactly as the request carries them, empty or not. Each is a GET whose
URL is the fixed endpoint followed at once, with no `?`, by the form encoding
of `cr`, `lr`, `num` and `q` (sorted by key); the URL has an empty query
component, and decoding the text after the endpoint as a query string gives
back exactly these four values, byte for byte. -/
theorem parameters_follow_the_endpoint (w : World) (r : Request)
    (hm : r.Method = "POST".toList) (hc : w.createOk = true) :
    (∃ sent : List (List Char),
      sent <+: crlfKeywords (r.PostFormValue "keywords".toList)
      ∧ (searchHandler w r).1.calls
          = sent.map fun k => buildRequest w.apiKey k (r.PostFormValue "lr".toList)
              (r.PostFormValue "cr".toList) (r.PostFormValue "num".toList))
    ∧ ∀ req ∈ (searchHandler w r).1.calls,
        ∃ k ∈ crlfKeywords (r.PostFormValue "keywords".toList),
          req.Method = "GET".toList
          ∧ req.URL = endpoint ++ ("cr=".toList ++ QueryEscape (r.PostFormValue "cr".toList)
              ++ '&' :: ("lr=".toList ++ QueryEscape (r.PostFormValue "lr".toList))
              ++ '&' :: ("num=".toList ++ QueryEscape (r.PostFormValue "num".toList))
              ++ '&' :: ("q=".toList ++ QueryEscape k))
          ∧ rawQuery req.URL = []
          ∧ req.Query = []
          ∧ ParseQuery (req.URL.drop endpoint.length)
              = ([(utf8Bytes "cr".toList, [utf8Bytes (r.PostFormValue "cr".toList)]),
                  (utf8Bytes "lr".toList, [utf8Bytes (r.PostFormValue "lr".toList)]),
                  (utf8Bytes "num".toList, [utf8Bytes (r.PostFormValue "num".toList)]),
                  (utf8Bytes "q".toList, [utf8Bytes k])], none)
          ∧ (ParseQuery (req.URL.drop endpoint.length)).1.Get (utf8Bytes "q".toList)
              = utf8Bytes k
          ∧ (ParseQuery (req.URL.drop endpoint.length)).1.Get (utf8Bytes "lr".toList)
              = utf8Bytes (r.PostFormValue "lr".toList)
          ∧ (ParseQuery (req.URL.drop endpoint.length)).1.Get (utf8Bytes "cr".toList)
              = utf8Bytes (r.PostFormValue "cr".toList)
          ∧ (ParseQuery (req.URL.drop endpoint.length)).1.Get (utf8Bytes "num".toList)
              = utf8Bytes (r.PostFormValue "num".toList) := by
  obtain ⟨sent, hp, hs⟩ := loopDelta_calls_initial w r.lr r.cr r.num (Split r.keywords crlf) 0
  have hcalls : (searchHandler w r).1.calls
      = sent.map fun k => buildRequest w.apiKey k r.lr r.cr r.num := by
    rw [searchHandler_post w r hm hc, batch_eq]
    simp [Effects.add, Effects.none, hs]
  have hp2 : sent <+: crlfKeywords r.keywords := hp
  refine ⟨⟨sent, hp2, hcalls⟩, ?_⟩
  intro req hreq
  rw [hcalls] at hreq
  obtain ⟨k, hk, hkreq⟩ := List.mem_map.mp hreq
  subst hkreq
  exact ⟨k, hp2.subset hk, buildRequest_shape w.apiKey k r.lr r.cr r.num⟩

theorem parameters_follow_the_endpoint_witness :
    (sampleRequest "POST".toList "  new york  \r\n\r\nb\r\nc".toList).Method = "POST".toList
    ∧ (sampleWorld [.ok ⟨200, "ok".toList⟩, .ok ⟨200, "ok".toList⟩, .ok ⟨429, []⟩]).createOk
        = true
    ∧ (searchHandler (sampleWorld [.ok ⟨200, "ok".toList⟩, .ok ⟨200, "ok".toList⟩, .ok ⟨429, []⟩])
        (sampleRequest "POST".toList "  new york  \r\n\r\nb\r\nc".toList)).1.calls
      = [⟨"GET".toList,
          "https://rapidapi.p.rapidapi.com/api/v1/search/cr=&lr=lang_en&num=10&q=new+york".toList,
          [("X-RapidAPI-Host".toList, "google-search3.p.rapidapi.com".toList),
           ("X-RapidAPI-Key".toList, "key".toList)]⟩,
         ⟨"GET".toList,
          "https://rapidapi.p.rapidapi.com/api/v1/search/cr=&lr=lang_en&num=10&q=b".toList,
          [("X-RapidAPI-Host".toList, "google-search3.p.rapidapi.com".toList),
           ("X-RapidAPI-Key".toList, "key".toList)]⟩]
    ∧ ∀ req ∈ (searchHandler
          (sampleWorld [.ok ⟨200, "ok".toList⟩, .ok ⟨200, "ok".toList⟩, .ok ⟨429, []⟩])
          (sampleRequest "POST".toList "  new york  \r\n\r\nb\r\nc".toList)).1.calls,
        rawQuery req.URL = []
        ∧ (ParseQuery (req.URL.drop endpoint.length)).1.Get (utf8Bytes "lr".toList)
            = utf8Bytes "lang_en".toList
        ∧ (ParseQuery (req.URL.drop endpoint.length)).1.Get (utf8Bytes "cr".toList) = []
        ∧ (ParseQuery (req.URL.drop endpoint.length)).1.Get (utf8Bytes "num".toList)
            = utf8Bytes "10".toList := by
  refine ⟨rfl, rfl, by decide, ?_⟩
  intro req hreq
  obtain ⟨_, _, _, _, h3, _, _, _, h7, h8, h9⟩ :=
    (parameters_follow_the_endpoint
      (sampleWorld [.ok ⟨200, "ok".toList⟩, .ok ⟨200, "ok".toList⟩, .ok ⟨429, []⟩])
      (sampleRequest "POST".toList "  new york  \r\n\r\nb\r\nc".toList) rfl rfl).2 req hreq
  exact ⟨h3, h7, h8, h9⟩

/-! ## C10: one link per line -/

/-- C10 as stated fails: when the API returns the single link `"a\nb"`, the
file holds the two lines `a` and `b` for one link. -/
theorem link_with_newline_takes_two_lines :
    (sampleRequest "POST".toList "k".toList).Method = "POST".toList
    ∧ (sampleWorld [.ok ⟨200, "nl".toList⟩]).createOk = true
    ∧ expectedLinks (sampleWorld [.ok ⟨200, "nl".toList⟩])
        (sampleRequest "POST".toList "k".toList) = ["a\nb".toList]
    ∧ (searchHandler (sampleWorld [.ok ⟨200, "nl".toList⟩])
        (sampleRequest "POST".toList "k".toList)).1.outFile
        = some ⟨outFileName 1700000000000000000, "a\nb\n".toList⟩
    ∧ fileLines "a\nb\n".toList = ["a".toList, "b".toList]
    ∧ (fileLines "a\nb\n".toList).length
        ≠ (expectedLinks (sampleWorld [.ok ⟨200, "nl".toList⟩])
            (sampleRequest "POST".toList "k".toList)).length := by
  decide

/-- C10 as amended: for every batch the file content is every expected link
followed by a newline, in order, whatever the links hold; and when no
expected link holds a newline character, the lines of the file are exactly
the expected links, one per line and in order, so there are as many lines as
links. -/
theorem file_lines_are_links (w : World) (r : Request)
    (hm : r.Method = "POST".toList) (hc : w.createOk = true) :
    (searchHandler w r).1.outFile
        = some ⟨outFileName w.now, asLines (expectedLinks w r)⟩
    ∧ ∃ f, (searchHandler w r).1.outFile = some f
        ∧ f.content = (expectedLinks w r).flatMap (fun link => link ++ ['\n'])
        ∧ ((∀ link ∈ expectedLinks w r, '\n' ∉ link) →
            fileLines f.content = expectedLinks w r
            ∧ (fileLines f.content).length = (expectedLinks w r).length
            ∧ ∀ (i : Nat) (hi : i < (expectedLinks w r).length),
                (fileLines f.content)[i]? = some ((expectedLinks w r).get ⟨i, hi⟩)) := by
  have hfile : (searchHandler w r).1.outFile
      = some ⟨outFileName w.now, asLines (expectedLinks w r)⟩ := by
    rw [searchHandler_post w r hm hc]
    simp [batch_eq, Effects.add, Effects.none, loopDelta_written, expectedLinks]
  refine ⟨hfile, ⟨outFileName w.now, asLines (expectedLinks w r)⟩, hfile, rfl, ?_⟩
  intro hnl
  have hl : fileLines (asLines (expectedLinks w r)) = expectedLinks w r :=
    fileLines_asLines _ hnl
  refine ⟨hl, by rw [hl], ?_⟩
  intro i hi
  rw [hl]
  exact List.getElem?_eq_getElem hi

theorem file_lines_are_links_witness :
    (sampleRequest "POST".toList "a\r\nb\r\nc".toList).Method = "POST".toList
    ∧ (sampleWorld [.ok ⟨200, "ok".toList⟩, .error "timeout".toList,
        .ok ⟨200, "nl".toList⟩]).createOk = true
    ∧ expectedLinks
        (sampleWorld [.ok ⟨200, "ok".toList⟩, .error "timeout".toList, .ok ⟨200, "nl".toList⟩])
        (sampleRequest "POST".toList "a\r\nb\r\nc".toList)
      = ["http://x".toList, "http://y".toList, "a\nb".toList]
    ∧ (searchHandler
        (sampleWorld [.ok ⟨200, "ok".toList⟩, .error "timeout".toList, .ok ⟨200, "nl".toList⟩])
        (sampleRequest "POST".toList "a\r\nb\r\nc".toList)).1.outFile
      = some ⟨"1700000000000000000.txt".toList, "http://x\nhttp://y\na\nb\n".toList⟩
    ∧ ∃ f, (searchHandler (sampleWorld [.ok ⟨200, "ok".toList⟩, .error "timeout".toList])
        (sampleRequest "POST".toList "a\r\nb\r\nc".toList)).1.outFile = some f
      ∧ fileLines f.content
          = ["http://x".toList, "http://y".toList, "http://x".toList, "http://y".toList] := by
  refine ⟨rfl, rfl, by decide,
    (file_lines_are_links
      (sampleWorld [.ok ⟨200, "ok".toList⟩, .error "timeout".toList, .ok ⟨200, "nl".toList⟩])
      (sampleRequest "POST".toList "a\r\nb\r\nc".toList) rfl rfl).1.trans (by decide), ?_⟩
  obtain ⟨f, hf, _, hlines⟩ :=
    (file_lines_are_links (sampleWorld [.ok ⟨200, "ok".toList⟩, .error "timeout".toList])
      (sampleRequest "POST".toList "a\r\nb\r\nc".toList) rfl rfl).2
  exact ⟨f, hf, (hlines (by decide)).1.trans (by decide)⟩

end Scraper
